import Mathlib

/-!
Verification of the music-analysis core of the `allegro` repository.

The development embeds, in Lean, the arithmetic and string algorithms of

  * `src/lib/utils/keyDetection` (key estimation, Krumhansl-Schmuckler),
  * `src/lib/utils/chordDetection.ts` (chord template matching and the
    progression predictor), and
  * the fragment matcher (`normalizeChord`, `chordsMatch`,
    `calculateMatchScore`, `keyMatches`, `findMatchingSongs`,
    `findSongsByKey`, `suggestSongsFromChords`) together with the song
    catalogue of `src/lib/data/songDatabase.ts`.

Number representation.  The JavaScript source computes with IEEE doubles;
as usual for a shallow embedding we idealise those as exact rational
arithmetic.  Lean's `ℚ` does not reduce inside the kernel, so the
embedding computes with `Q`, a canonical fraction type (integer numerator,
positive gcd-reduced natural denominator).  `Q.val : Q → ℚ` interprets it
in `ℚ`; every operation is proved to agree with its `ℚ` counterpart, and
canonical representatives are unique (`Q.canon_val_inj`), so equality of
`Q` values is equality of the rational numbers they denote.

Square roots.  The only irrational quantities in the source are the cosine
similarity `dot / (√magA · √magB)` and the Pearson correlation
`num / √(dX · dY)`.  Such a value `d / √r` (with `r > 0`) is represented
exactly by the pair `Score := ⟨d, r⟩`.  Because `x ↦ x·|x|` is strictly
monotone on ℝ and `(d/√r)·|d/√r| = d·|d|/r`, two scores compare exactly
as the rational numbers `Score.key = d·|d|/r` compare, and a score
compares with a rational `c` exactly as `key` compares with `c·|c|`.
All comparisons the source performs on these quantities are therefore
decided exactly.  Affine images `d/√r + o` of such values (the key
detector's `(corr + 1) / 2` confidence mapping and its clamping) are
represented by `AffScore` and compared with rationals the same way.

Strings.  JavaScript string primitives (`startsWith`, `endsWith`, `trim`,
first-occurrence `replace`) are implemented on `String.data` (`List Char`)
so that they evaluate inside the kernel; each helper documents the
JavaScript expression it implements.
-/

set_option maxRecDepth 8000000

set_option maxHeartbeats 2000000

/-- Exact fraction: numerator and (intended positive, gcd-reduced)
denominator.  All constructors below produce canonical values. -/
structure Q where
  num : Int
  den : Nat
deriving DecidableEq, Repr

/-- Canonical form: positive denominator, fraction fully reduced. -/
def Q.IsCanon (x : Q) : Prop := 0 < x.den ∧ Nat.Coprime x.num.natAbs x.den

instance (x : Q) : Decidable x.IsCanon := by unfold Q.IsCanon Nat.Coprime; infer_instance

/-- Build the canonical fraction `n / d`; `d = 0` yields `0`, matching the
convention `x / 0 = 0` of `ℚ` (division by zero never occurs on the paths
the source actually takes). -/
def Q.mkRaw (n : Int) (d : Nat) : Q :=
  if d = 0 then ⟨0, 1⟩
  else
    let g := Nat.gcd n.natAbs d
    if n < 0 then ⟨-((n.natAbs / g : Nat) : Int), d / g⟩
    else ⟨((n.natAbs / g : Nat) : Int), d / g⟩

/-- Interpretation in `ℚ`. -/
def Q.val (x : Q) : ℚ := (x.num : ℚ) / (x.den : ℚ)

theorem Q.mkRaw_canon (n : Int) (d : Nat) : (Q.mkRaw n d).IsCanon := by
  unfold Q.mkRaw
  split
  · exact ⟨Nat.one_pos, by simp [Nat.Coprime]⟩
  · rename_i hd
    have hdpos : 0 < d := Nat.pos_of_ne_zero hd
    have hg : 0 < Nat.gcd n.natAbs d := Nat.gcd_pos_of_pos_right _ hdpos
    have hden : 0 < d / Nat.gcd n.natAbs d :=
      Nat.div_pos (Nat.le_of_dvd hdpos (Nat.gcd_dvd_right _ _)) hg
    have hco := Nat.coprime_div_gcd_div_gcd (m := n.natAbs) (n := d) hg
    split
    · exact ⟨hden, by rw [Int.natAbs_neg, Int.natAbs_ofNat]; exact hco⟩
    · exact ⟨hden, by rw [Int.natAbs_ofNat]; exact hco⟩

theorem Q.val_mkRaw (n : Int) (d : Nat) : (Q.mkRaw n d).val = (n : ℚ) / (d : ℚ) := by
  unfold Q.mkRaw
  split
  · rename_i hd; subst hd; simp [Q.val]
  · rename_i hd
    have hdpos : 0 < d := Nat.pos_of_ne_zero hd
    have hg : 0 < Nat.gcd n.natAbs d := Nat.gcd_pos_of_pos_right _ hdpos
    have hgQ : (Nat.gcd n.natAbs d : ℚ) ≠ 0 := by exact_mod_cast hg.ne'
    have hdQ : (d : ℚ) ≠ 0 := by exact_mod_cast hdpos.ne'
    have hnum : ((n.natAbs / Nat.gcd n.natAbs d : Nat) : ℚ)
        = (n.natAbs : ℚ) / (Nat.gcd n.natAbs d : ℚ) :=
      Nat.cast_div (Nat.gcd_dvd_left _ _) hgQ
    have hden : ((d / Nat.gcd n.natAbs d : Nat) : ℚ)
        = (d : ℚ) / (Nat.gcd n.natAbs d : ℚ) :=
      Nat.cast_div (Nat.gcd_dvd_right _ _) hgQ
    split
    · rename_i hneg
      have habsZ : ((n.natAbs : ℤ)) = -n := by
        rw [← Int.natAbs_neg]; exact Int.natAbs_of_nonneg (by omega)
      have habs : (n.natAbs : ℚ) = -(n : ℚ) := by
        rw [← Int.cast_natCast (R := ℚ), habsZ, Int.cast_neg]
      simp only [Q.val, Int.cast_neg, Int.cast_natCast]
      rw [hnum, hden, habs]
      field_simp
    · rename_i hneg
      have habsZ : ((n.natAbs : ℤ)) = n := Int.natAbs_of_nonneg (by omega)
      have habs : (n.natAbs : ℚ) = (n : ℚ) := by
        rw [← Int.cast_natCast (R := ℚ), habsZ]
      simp only [Q.val, Int.cast_natCast]
      rw [hnum, hden, habs]
      field_simp

theorem Q.canon_val_inj {x y : Q} (hx : x.IsCanon) (hy : y.IsCanon)
    (h : x.val = y.val) : x = y := by
  obtain ⟨hx1, hx2⟩ := hx
  obtain ⟨hy1, hy2⟩ := hy
  have ex : x.val = Rat.mk' x.num x.den hx1.ne' hx2 := by
    rw [Rat.mk'_eq_divInt, Rat.divInt_eq_div]; rfl
  have ey : y.val = Rat.mk' y.num y.den hy1.ne' hy2 := by
    rw [Rat.mk'_eq_divInt, Rat.divInt_eq_div]; rfl
  rw [ex, ey] at h
  have hnum := congrArg Rat.num h
  have hden := congrArg Rat.den h
  simp only [Rat.mk'] at hnum hden
  cases x; cases y
  simp_all

/-- Sum `x + y` (canonicalised cross multiplication). -/
def Q.add (x y : Q) : Q :=
  Q.mkRaw (x.num * (y.den : Int) + y.num * (x.den : Int)) (x.den * y.den)

/-- Difference `x - y`. -/
def Q.sub (x y : Q) : Q :=
  Q.mkRaw (x.num * (y.den : Int) - y.num * (x.den : Int)) (x.den * y.den)

/-- Product `x * y`. -/
def Q.mul (x y : Q) : Q := Q.mkRaw (x.num * y.num) (x.den * y.den)

/-- Negation. -/
def Q.neg (x : Q) : Q := Q.mkRaw (-x.num) x.den

/-- Quotient `x / y`; division by zero yields `0`, as in `ℚ`. -/
def Q.div (x y : Q) : Q :=
  if 0 ≤ y.num then Q.mkRaw (x.num * (y.den : Int)) (x.den * y.num.toNat)
  else Q.mkRaw (-(x.num * (y.den : Int))) (x.den * (-y.num).toNat)

/-- Absolute value. -/
def Q.abs (x : Q) : Q := if x.num < 0 then Q.neg x else x

/-- Strict comparison by cross multiplication (exact on positive
denominators). -/
def Q.blt (x y : Q) : Bool := decide (x.num * (y.den : Int) < y.num * (x.den : Int))

/-- Non-strict comparison by cross multiplication. -/
def Q.ble (x y : Q) : Bool := decide (x.num * (y.den : Int) ≤ y.num * (x.den : Int))

instance : LT Q := ⟨fun x y => Q.blt x y = true⟩
instance : LE Q := ⟨fun x y => Q.ble x y = true⟩

instance (x y : Q) : Decidable (x < y) := by
  change Decidable (Q.blt x y = true); infer_instance

instance (x y : Q) : Decidable (x ≤ y) := by
  change Decidable (Q.ble x y = true); infer_instance

instance : Add Q := ⟨Q.add⟩
instance : Sub Q := ⟨Q.sub⟩
instance : Mul Q := ⟨Q.mul⟩
instance : Div Q := ⟨Q.div⟩
instance : Neg Q := ⟨Q.neg⟩

instance (n : Nat) : OfNat Q n := ⟨⟨(n : Int), 1⟩⟩

/-- Decimal literals such as `0.05` or `6.35` denote exact fractions. -/
instance : OfScientific Q :=
  ⟨fun m b e => if b then Q.mkRaw (m : Int) (10 ^ e) else ⟨((m * 10 ^ e : Nat) : Int), 1⟩⟩

theorem Q.add_canon (x y : Q) : (Q.add x y).IsCanon := Q.mkRaw_canon _ _
theorem Q.sub_canon (x y : Q) : (Q.sub x y).IsCanon := Q.mkRaw_canon _ _
theorem Q.mul_canon (x y : Q) : (Q.mul x y).IsCanon := Q.mkRaw_canon _ _
theorem Q.neg_canon (x : Q) : (Q.neg x).IsCanon := Q.mkRaw_canon _ _

theorem Q.div_canon (x y : Q) : (Q.div x y).IsCanon := by
  unfold Q.div; split <;> exact Q.mkRaw_canon _ _

theorem Q.abs_canon {x : Q} (hx : x.IsCanon) : (Q.abs x).IsCanon := by
  unfold Q.abs; split
  · exact Q.neg_canon x
  · exact hx

theorem Q.hadd_def (x y : Q) : x + y = Q.add x y := rfl
theorem Q.hsub_def (x y : Q) : x - y = Q.sub x y := rfl
theorem Q.hmul_def (x y : Q) : x * y = Q.mul x y := rfl
theorem Q.hdiv_def (x y : Q) : x / y = Q.div x y := rfl
theorem Q.hneg_def (x : Q) : -x = Q.neg x := rfl

theorem Q.ofNat_canon (n : Nat) : (OfNat.ofNat n : Q).IsCanon :=
  ⟨Nat.one_pos, Nat.coprime_one_right _⟩

theorem Q.val_ofNat (n : Nat) : (OfNat.ofNat n : Q).val = n := by
  show ((n : Int) : ℚ) / ((1 : ℕ) : ℚ) = n
  push_cast
  exact div_one _

theorem Q.val_add {x y : Q} (hx : x.den ≠ 0) (hy : y.den ≠ 0) :
    (Q.add x y).val = x.val + y.val := by
  unfold Q.add
  rw [Q.val_mkRaw, Q.val]
  have hx' : (x.den : ℚ) ≠ 0 := Nat.cast_ne_zero.mpr hx
  have hy' : (y.den : ℚ) ≠ 0 := Nat.cast_ne_zero.mpr hy
  rw [Q.val]
  push_cast
  field_simp

theorem Q.val_sub {x y : Q} (hx : x.den ≠ 0) (hy : y.den ≠ 0) :
    (Q.sub x y).val = x.val - y.val := by
  unfold Q.sub
  rw [Q.val_mkRaw, Q.val]
  have hx' : (x.den : ℚ) ≠ 0 := Nat.cast_ne_zero.mpr hx
  have hy' : (y.den : ℚ) ≠ 0 := Nat.cast_ne_zero.mpr hy
  rw [Q.val]
  push_cast
  field_simp
  ring

theorem Q.val_mul (x y : Q) : (Q.mul x y).val = x.val * y.val := by
  unfold Q.mul
  rw [Q.val_mkRaw, Q.val, Q.val]
  push_cast
  exact (div_mul_div_comm _ _ _ _).symm

theorem Q.val_neg (x : Q) : (Q.neg x).val = -x.val := by
  unfold Q.neg
  rw [Q.val_mkRaw, Q.val]
  push_cast
  rw [neg_div]

theorem Q.val_div {x y : Q} (hx : x.den ≠ 0) (hy : y.den ≠ 0) :
    (Q.div x y).val = x.val / y.val := by
  have hxQ : (x.den : ℚ) ≠ 0 := Nat.cast_ne_zero.mpr hx
  have hyQ : (y.den : ℚ) ≠ 0 := Nat.cast_ne_zero.mpr hy
  unfold Q.div
  rcases lt_trichotomy y.num 0 with hn | hn | hn
  · rw [if_neg (by omega), Q.val_mkRaw]
    have h1 : (((-y.num).toNat : ℚ)) = -(y.num : ℚ) := by
      rw [← Int.cast_natCast (R := ℚ), Int.toNat_of_nonneg (by omega)]
      push_cast
      ring
    unfold Q.val
    push_cast [h1]
    have hnQ : (y.num : ℚ) ≠ 0 := by exact_mod_cast hn.ne
    field_simp
  · rw [if_pos (by omega), Q.val_mkRaw]
    unfold Q.val
    rw [hn]
    norm_num
  · rw [if_pos (by omega), Q.val_mkRaw]
    have h1 : ((y.num.toNat : ℚ)) = (y.num : ℚ) := by
      rw [← Int.cast_natCast (R := ℚ), Int.toNat_of_nonneg (by omega)]
    unfold Q.val
    push_cast [h1]
    have hnQ : (y.num : ℚ) ≠ 0 := by exact_mod_cast hn.ne'
    field_simp

theorem Q.val_abs {x : Q} (hx : x.IsCanon) : (Q.abs x).val = |x.val| := by
  unfold Q.abs
  have hd : (0 : ℚ) < (x.den : ℚ) := by exact_mod_cast hx.1
  split
  · rename_i h
    rw [Q.val_neg]
    have : x.val < 0 := by
      rw [Q.val]
      apply div_neg_of_neg_of_pos _ hd
      exact_mod_cast h
    rw [abs_of_neg this]
  · rename_i h
    have : 0 ≤ x.val := by
      rw [Q.val]
      apply div_nonneg _ hd.le
      exact_mod_cast (by omega : (0 : ℤ) ≤ x.num)
    rw [abs_of_nonneg this]

theorem Q.blt_iff {x y : Q} (hx : 0 < x.den) (hy : 0 < y.den) :
    Q.blt x y = true ↔ x.val < y.val := by
  unfold Q.blt Q.val
  rw [decide_eq_true_iff]
  have hx' : (0 : ℚ) < (x.den : ℚ) := by exact_mod_cast hx
  have hy' : (0 : ℚ) < (y.den : ℚ) := by exact_mod_cast hy
  rw [div_lt_div_iff hx' hy']
  constructor
  · intro h; exact_mod_cast h
  · intro h; exact_mod_cast h

theorem Q.ble_iff {x y : Q} (hx : 0 < x.den) (hy : 0 < y.den) :
    Q.ble x y = true ↔ x.val ≤ y.val := by
  unfold Q.ble Q.val
  rw [decide_eq_true_iff]
  have hx' : (0 : ℚ) < (x.den : ℚ) := by exact_mod_cast hx
  have hy' : (0 : ℚ) < (y.den : ℚ) := by exact_mod_cast hy
  rw [div_le_div_iff hx' hy']
  constructor
  · intro h; exact_mod_cast h
  · intro h; exact_mod_cast h

/-! ### JavaScript string primitives

Implemented on `String.data` (`List Char`) so that concrete instances
evaluate inside the kernel.  Each definition notes the JavaScript
operation it models. -/

/-- JS `s.startsWith(p)`. -/
def jsStartsWith (s p : String) : Bool := s.data.take p.data.length == p.data

/-- JS `s.endsWith(p)`. -/
def jsEndsWith (s p : String) : Bool :=
  decide (p.data.length ≤ s.data.length)
    && (s.data.drop (s.data.length - p.data.length) == p.data)

/-- Drop the last `n` characters (used to model suffix-anchored
`s.replace(/suffix$/, ...)`). -/
def jsDropRight (s : String) (n : Nat) : String := ⟨s.data.take (s.data.length - n)⟩

/-- Drop the first `n` characters. -/
def jsDropLeft (s : String) (n : Nat) : String := ⟨s.data.drop n⟩

/-- Whitespace test for `trim` (the chord labels the matcher sees contain
at most ASCII whitespace, so the ASCII subset of the JS definition
suffices). -/
def isJsSpace (c : Char) : Bool := c == ' ' || c == '\t' || c == '\n' || c == '\r'

/-- JS `s.trim()`. -/
def jsTrim (s : String) : String :=
  ⟨((s.data.dropWhile isJsSpace).reverse.dropWhile isJsSpace).reverse⟩

/-- Remove the first occurrence of character `c`, if any. -/
def removeFirstChar (c : Char) : List Char → List Char
  | [] => []
  | x :: xs => if x = c then xs else x :: removeFirstChar c xs

/-- JS `s.replace('m', '')`: JavaScript `replace` with a string pattern
replaces only the first occurrence. -/
def jsRemoveFirstM (s : String) : String := ⟨removeFirstChar 'm' s.data⟩

/-- JS `NOTE_NAMES.indexOf(s)`: index of the first occurrence, `-1` when
absent. -/
def jsIndexOfAux (s : String) : List String → Int → Int
  | [], _ => -1
  | x :: xs, i => if x = s then i else jsIndexOfAux s xs (i + 1)

/-- Index of `s` in `l` in the JavaScript convention. -/
def jsIndexOf (l : List String) (s : String) : Int := jsIndexOfAux s l 0

/-! ### Exact representation of similarity scores

`Score ⟨d, r⟩` denotes the real number `d / √r` (the source computes
`dot / (√magA · √magB)`, i.e. `r = magA · magB`; all constructed scores
have `r > 0`, with true value `0` encoded as `⟨0, 1⟩`).  Since `x ↦ x·|x|`
is strictly monotone on ℝ and `(d/√r)·|d/√r| = d·|d|/r`, comparisons of
two scores, or of a score with a rational `c`, are decided exactly by
comparing `Score.key = d·|d|/r` with the other key (resp. with `c·|c|`). -/

structure Score where
  dot : Q
  rad : Q
deriving DecidableEq, Repr

/-- Rational comparison key `d·|d|/r`; compares as the value `d/√r` does. -/
def Score.key (s : Score) : Q := Q.div (Q.mul s.dot (Q.abs s.dot)) s.rad

/-- Value of `x` strictly below value of `y`. -/
def Score.blt (x y : Score) : Bool := Q.blt x.key y.key

/-- Value of `s` strictly above the rational `c`. -/
def Score.bgtQ (s : Score) (c : Q) : Bool := Q.blt (Q.mul c (Q.abs c)) s.key

/-! ### Embedding of `src/lib/utils/chordDetection.ts` -/

/-- `NOTE_NAMES` of `keyDetection` (also used by the chord detector). -/
def NOTE_NAMES : List String :=
  ["C", "C#", "D", "D#", "E", "F"] ++ ["F#", "G", "G#", "A", "A#", "B"]

/-- `NOTE_NAMES[i]` for an in-range natural index. -/
def noteName (i : Nat) : String := NOTE_NAMES.getD i ""

/-- `NOTE_NAMES[i]` under JavaScript indexing: out-of-range access gives
`undefined`, which template interpolation renders as `"undefined"`. -/
def jsNoteAt (i : Int) : String :=
  if 0 ≤ i ∧ i < 12 then NOTE_NAMES.getD i.toNat "" else "undefined"

/-- `ChordQuality`; the source's string `'7'` (dominant seventh) is the
constructor `dom7`. -/
inductive ChordQuality where
  | major
  | minor
  | dom7
  | maj7
  | min7
  | dim
  | aug
  | sus4
  | sus2
deriving DecidableEq, Repr

/-- `CHORD_TEMPLATES`: 12-element weight vector per quality. -/
def CHORD_TEMPLATES : ChordQuality → List Q
  | .major => [1, 0, 0, 0, 0.8, 0, 0, 0.9, 0, 0, 0, 0]
  | .minor => [1, 0, 0, 0.8, 0, 0, 0, 0.9, 0, 0, 0, 0]
  | .dom7 => [1, 0, 0, 0, 0.7, 0, 0, 0.8, 0, 0, 0.6, 0]
  | .maj7 => [1, 0, 0, 0, 0.7, 0, 0, 0.8, 0, 0, 0, 0.6]
  | .min7 => [1, 0, 0, 0.7, 0, 0, 0, 0.8, 0, 0, 0.6, 0]
  | .dim => [1, 0, 0, 0.8, 0, 0, 0.8, 0, 0, 0, 0, 0]
  | .aug => [1, 0, 0, 0, 0.8, 0, 0, 0, 0.8, 0, 0, 0]
  | .sus4 => [1, 0, 0, 0, 0, 0.8, 0, 0.9, 0, 0, 0, 0]
  | .sus2 => [1, 0, 0.8, 0, 0, 0, 0, 0.9, 0, 0, 0, 0]

/-- `COMMON_QUALITIES`: the qualities the detection loops iterate over. -/
def COMMON_QUALITIES : List ChordQuality :=
  [.major, .minor, .dom7, .min7, .maj7, .dim, .sus4]

/-- `rotateArray` of `chordDetection.ts`:
`[...arr.slice(len - normalized), ...arr.slice(0, len - normalized)]`
(right rotation).  All call sites pass `0 ≤ n < 12`, so `normalized`
is `n % len`. -/
def rotateArray (arr : List Q) (n : Nat) : List Q :=
  let len := arr.length
  let normalized := n % len
  arr.drop (len - normalized) ++ arr.take (len - normalized)

/-- `dotProductSimilarity`: cosine similarity as an exact `Score`.
The source's guard `√magA · √magB === 0` is equivalent to
`magA · magB = 0` because both magnitudes are sums of squares. -/
def dotProductSimilarity (a b : List Q) : Score :=
  if a.length ≠ b.length then ⟨0, 1⟩
  else
    let dot := ((a.zip b).map (fun p => p.1 * p.2)).foldl (· + ·) (0 : Q)
    let magA := (a.map (fun x => x * x)).foldl (· + ·) (0 : Q)
    let magB := (b.map (fun x => x * x)).foldl (· + ·) (0 : Q)
    if magA * magB = 0 then ⟨0, 1⟩ else ⟨dot, magA * magB⟩

/-- `formatChordName`. -/
def formatChordName (root : String) (quality : ChordQuality) : String :=
  let qualitySuffix : String :=
    match quality with
    | .major => ""
    | .minor => "m"
    | .dom7 => "7"
    | .maj7 => "maj7"
    | .min7 => "m7"
    | .dim => "dim"
    | .aug => "aug"
    | .sus4 => "sus4"
    | .sus2 => "sus2"
  root ++ qualitySuffix

/-- `DetectedChord`. -/
structure DetectedChord where
  root : String
  quality : ChordQuality
  confidence : Score
  displayName : String
deriving DecidableEq, Repr

/-- The `(rootIndex, quality)` pairs visited by the two nested detection
loops, in iteration order (roots 0–11 outer, `COMMON_QUALITIES` inner). -/
def chordCandidatePairs : List (Nat × ChordQuality) :=
  (List.range 12).bind (fun r => COMMON_QUALITIES.map (fun q => (r, q)))

/-- The candidate built for one loop iteration of either detector. -/
def candidateAt (normalizedChroma : List Q) (rq : Nat × ChordQuality) :
    Score × DetectedChord :=
  let root := noteName rq.1
  let rotatedTemplate := rotateArray (CHORD_TEMPLATES rq.2) rq.1
  let score := dotProductSimilarity normalizedChroma rotatedTemplate
  (score, ⟨root, rq.2, score, formatChordName root rq.2⟩)

/-- `detectChordFromChroma`.  The source also accumulates an
`alternatives` array that it never returns; that dead local is omitted.
`bestScore` starts at the number `0`, encoded as the score `⟨0, 1⟩`. -/
def detectChordFromChroma (chroma : List Q) : Option DetectedChord :=
  if chroma.length ≠ 12 then none
  else
    let totalEnergy := chroma.foldl (· + ·) (0 : Q)
    if Q.blt totalEnergy 0.05 then none
    else
      let normalizedChroma := chroma.map (fun c => Q.div c totalEnergy)
      let st := chordCandidatePairs.foldl
        (fun (st : Option DetectedChord × Score) rq =>
          let c := candidateAt normalizedChroma rq
          if Score.bgtQ c.1 0.5 then
            if Score.blt st.2 c.1 then (some c.2, c.1) else st
          else st)
        (none, ⟨0, 1⟩)
      st.1

/-- Stable insertion of `x` into a list sorted by strictly descending
key: `x` goes before the first element whose key is not larger. -/
def insertByKeyDesc (f : α → Q) (x : α) : List α → List α
  | [] => [x]
  | y :: ys => if Q.blt (f x) (f y) then y :: insertByKeyDesc f x ys else x :: y :: ys

/-- Stable sort by descending key; models JS `arr.sort((a, b) => f(b) - f(a))`
(ECMAScript sorts are stable, and a stable sort is determined by the
comparator, so any stable algorithm is a faithful model). -/
def sortByKeyDesc (f : α → Q) : List α → List α
  | [] => []
  | x :: xs => insertByKeyDesc f x (sortByKeyDesc f xs)

/-- Result of `detectChordWithAlternatives`. -/
structure ChordAlternativesResult where
  chord : Option DetectedChord
  alternatives : List DetectedChord
deriving DecidableEq, Repr

/-- The `candidates.push` loop of `detectChordWithAlternatives`, embedded
as a `filterMap` over the loop iterations in order. -/
def chordCandidatesOf (normalizedChroma : List Q) : List DetectedChord :=
  chordCandidatePairs.filterMap (fun rq =>
    let c := candidateAt normalizedChroma rq
    if Score.bgtQ c.1 0.4 then some c.2 else none)

/-- `detectChordWithAlternatives`. -/
def detectChordWithAlternatives (chroma : List Q) : ChordAlternativesResult :=
  if chroma.length ≠ 12 then ⟨none, []⟩
  else
    let totalEnergy := chroma.foldl (· + ·) (0 : Q)
    if Q.blt totalEnergy 0.05 then ⟨none, []⟩
    else
      let normalizedChroma := chroma.map (fun c => Q.div c totalEnergy)
      let sorted := sortByKeyDesc (fun c => Score.key c.confidence)
        (chordCandidatesOf normalizedChroma)
      ⟨sorted.head?, (sorted.drop 1).take 3⟩

/-- Key mode (`'major' | 'minor'` in the source). -/
inductive Mode where
  | major
  | minor
deriving DecidableEq, Repr

/-- String form of a mode, as interpolated into messages. -/
def Mode.str : Mode → String
  | .major => "major"
  | .minor => "minor"

/-- `COMMON_PROGRESSIONS`. -/
def COMMON_PROGRESSIONS (mode : Mode) : List (List String) :=
  match mode with
  | .major =>
      [["I", "IV", "V", "I"],
       ["I", "V", "vi", "IV"],
       ["I", "vi", "IV", "V"],
       ["ii", "V", "I"],
       ["I", "IV", "I", "V"]]
  | .minor =>
      [["i", "iv", "V", "i"],
       ["i", "VI", "III", "VII"],
       ["i", "iv", "VII", "III"]]

/-- The `numeralMap` of `numeralToChord` (degree and quality suffix); the
source's diminished entry is spelled with the mojibake `viiÂ°` key it has
in the file. -/
def numeralMap (numeral : String) : Option (Nat × String) :=
  match numeral with
  | "I" => some (0, "")
  | "ii" => some (1, "m")
  | "iii" => some (2, "m")
  | "IV" => some (3, "")
  | "V" => some (4, "")
  | "vi" => some (5, "m")
  | "viiÂ°" => some (6, "dim")
  | "i" => some (0, "m")
  | "iv" => some (3, "m")
  | "III" => some (2, "")
  | "VI" => some (5, "")
  | "VII" => some (6, "")
  | _ => none

/-- `numeralToChord`.  `NOTE_NAMES.indexOf` yields `-1` for a root outside
`NOTE_NAMES`; JS `%` truncates toward zero (`Int.tmod`), and a negative
index then reads `undefined`. -/
def numeralToChord (numeral : String) (keyRoot : String) (mode : Mode) : String :=
  let majorScale : List Nat := [0, 2, 4, 5, 7, 9, 11]
  let minorScale : List Nat := [0, 2, 3, 5, 7, 8, 10]
  let scale := if mode = .major then majorScale else minorScale
  let rootIndex := jsIndexOf NOTE_NAMES keyRoot
  match numeralMap numeral with
  | none => numeral
  | some info =>
      let noteIndex := Int.tmod (rootIndex + (scale.getD info.1 0 : Int)) 12
      jsNoteAt noteIndex ++ info.2

/-- `predictNextChords`. -/
def predictNextChords (currentChord : String) (keyRoot : String) (mode : Mode) :
    List String :=
  let progressions := COMMON_PROGRESSIONS mode
  let predictions := progressions.foldl (fun acc progression =>
    (progression.zip progression.tail).foldl (fun acc2 pair =>
      let chordInKey := numeralToChord pair.1 keyRoot mode
      if chordInKey = currentChord
          ∨ jsRemoveFirstM chordInKey = jsRemoveFirstM currentChord then
        let nextChord := numeralToChord pair.2 keyRoot mode
        if nextChord ∈ acc2 then acc2 else acc2 ++ [nextChord]
      else acc2) acc) []
  predictions.take 3

/-! ### Embedding of the key detector (`detectKeyFromChroma`) -/

/-- Krumhansl-Schmuckler major profile. -/
def MAJOR_PROFILE : List Q :=
  [6.35, 2.23, 3.48, 2.33, 4.38, 4.09, 2.52, 5.19, 2.39, 3.66, 2.29, 2.88]

/-- Krumhansl-Schmuckler minor profile. -/
def MINOR_PROFILE : List Q :=
  [6.33, 2.68, 3.52, 5.38, 2.60, 3.53, 2.54, 4.75, 3.98, 2.69, 3.34, 3.17]

/-- `rotateArray` of `keyDetection`:
`[...arr.slice(normalized), ...arr.slice(0, normalized)]` (left rotation —
note the direction differs from the chord module's rotation). -/
def rotateProfile (arr : List Q) (n : Nat) : List Q :=
  let len := arr.length
  let normalized := n % len
  arr.drop normalized ++ arr.take normalized

/-- `pearsonCorrelation` as an exact `Score` (`num / √(denomX · denomY)`);
the guard `√(denomX · denomY) === 0` is equivalent to
`denomX · denomY = 0` because both are sums of squares. -/
def pearsonCorrelation (x y : List Q) : Score :=
  if x.length ≠ y.length ∨ x.length = 0 then ⟨0, 1⟩
  else
    let n : Q := ⟨(x.length : Int), 1⟩
    let meanX := (x.foldl (· + ·) (0 : Q)) / n
    let meanY := (y.foldl (· + ·) (0 : Q)) / n
    let numerator :=
      ((x.zip y).map (fun p => (p.1 - meanX) * (p.2 - meanY))).foldl (· + ·) (0 : Q)
    let denomX := (x.map (fun v => (v - meanX) * (v - meanX))).foldl (· + ·) (0 : Q)
    let denomY := (y.map (fun v => (v - meanY) * (v - meanY))).foldl (· + ·) (0 : Q)
    if denomX * denomY = 0 then ⟨0, 1⟩ else ⟨numerator, denomX * denomY⟩

/-- Exact representation of `d/√r + o`: the affine images of correlation
values produced by the confidence mapping `(corr + 1) / 2` and by
clamping.  Comparison with a rational `c` reduces to comparing
`d/√r` with `c - o`, i.e. the keys `d·|d|/r` and `(c-o)·|c-o|`. -/
structure AffScore where
  dot : Q
  off : Q
  rad : Q
deriving DecidableEq, Repr

/-- Embed a correlation value `d/√r` as an affine score. -/
def AffScore.ofScore (s : Score) : AffScore := ⟨s.dot, 0, s.rad⟩

/-- Constant rational as an affine score. -/
def AffScore.constQ (c : Q) : AffScore := ⟨0, c, 1⟩

/-- Add a rational. -/
def AffScore.addQ (x : AffScore) (q : Q) : AffScore := ⟨x.dot, x.off + q, x.rad⟩

/-- Divide by a rational. -/
def AffScore.divQ (x : AffScore) (q : Q) : AffScore := ⟨x.dot / q, x.off / q, x.rad⟩

/-- Value of `x` strictly above the rational `c`. -/
def AffScore.bgtQ (x : AffScore) (c : Q) : Bool :=
  Q.blt (Q.mul (c - x.off) (Q.abs (c - x.off))) (Q.div (Q.mul x.dot (Q.abs x.dot)) x.rad)

/-- Value of `x` strictly below the rational `c`. -/
def AffScore.bltQ (x : AffScore) (c : Q) : Bool :=
  Q.blt (Q.div (Q.mul x.dot (Q.abs x.dot)) x.rad) (Q.mul (c - x.off) (Q.abs (c - x.off)))

/-- The source's confidence mapping
`Math.max(0, Math.min(1, (corr + 1) / 2))`. -/
def clampConfidence (corr : Score) : AffScore :=
  let v := ((AffScore.ofScore corr).addQ 1).divQ 2
  let m := if AffScore.bltQ v 1 then v else AffScore.constQ 1
  if AffScore.bltQ m 0 then AffScore.constQ 0 else m

/-- The alternate-key payload of a `DetectedKey`. -/
structure AlternateKey where
  key : String
  mode : Mode
  confidence : AffScore
deriving DecidableEq, Repr

/-- `DetectedKey`. -/
structure DetectedKey where
  key : String
  mode : Mode
  confidence : AffScore
  alternateKey : Option AlternateKey
deriving DecidableEq, Repr

/-- Loop state of `detectKeyFromChroma`; `none` encodes the `-Infinity`
initial values of the correlation trackers. -/
structure KeyScanState where
  bestCorrelation : Option Score
  bestKey : Nat
  bestMode : Mode
  secondBestCorrelation : Option Score
  secondBestKey : Nat
  secondBestMode : Mode
deriving DecidableEq, Repr

/-- `correlation > tracked` where the tracked value may be `-Infinity`. -/
def scoreGtOpt (s : Score) : Option Score → Bool
  | none => true
  | some b => Score.blt b s

/-- The 24 candidates in iteration order: major roots 0–11, then minor
roots 0–11. -/
def keyCandidates : List (Mode × Nat) :=
  ((List.range 12).map (fun i => (Mode.major, i)))
    ++ ((List.range 12).map (fun i => (Mode.minor, i)))

/-- Profile for a mode. -/
def keyProfile : Mode → List Q
  | .major => MAJOR_PROFILE
  | .minor => MINOR_PROFILE

/-- One iteration of the best/second-best tracking loops. -/
def keyScanStep (normalizedChroma : List Q) (st : KeyScanState) (c : Mode × Nat) :
    KeyScanState :=
  let rotatedProfile := rotateProfile (keyProfile c.1) c.2
  let correlation := pearsonCorrelation normalizedChroma rotatedProfile
  if scoreGtOpt correlation st.bestCorrelation then
    { bestCorrelation := some correlation, bestKey := c.2, bestMode := c.1,
      secondBestCorrelation := st.bestCorrelation, secondBestKey := st.bestKey,
      secondBestMode := st.bestMode }
  else if scoreGtOpt correlation st.secondBestCorrelation then
    { st with secondBestCorrelation := some correlation,
              secondBestKey := c.2, secondBestMode := c.1 }
  else st

/-- Initial state (`bestKey = 0`, `bestMode = 'major'`, correlations
`-Infinity`). -/
def keyScanInit : KeyScanState := ⟨none, 0, .major, none, 0, .major⟩

/-- The two tracking loops of `detectKeyFromChroma`. -/
def keyScan (normalizedChroma : List Q) : KeyScanState :=
  keyCandidates.foldl (keyScanStep normalizedChroma) keyScanInit

/-- `detectKeyFromChroma`. -/
def detectKeyFromChroma (chroma : List Q) : Option DetectedKey :=
  if chroma.length ≠ 12 then none
  else
    let totalEnergy := chroma.foldl (· + ·) (0 : Q)
    if Q.blt totalEnergy 0.01 then none
    else
      let normalizedChroma := chroma.map (fun c => Q.div c totalEnergy)
      let st := keyScan normalizedChroma
      match st.bestCorrelation with
      | some bc =>
          let alternateKey : Option AlternateKey :=
            match st.secondBestCorrelation with
            | some sc =>
                if AffScore.bgtQ (clampConfidence sc) 0.3 then
                  some ⟨noteName st.secondBestKey, st.secondBestMode, clampConfidence sc⟩
                else none
            | none => none
          some ⟨noteName st.bestKey, st.bestMode, clampConfidence bc, alternateKey⟩
      | none =>
          -- Unreachable: the 24-candidate scan always sets `bestCorrelation`.
          -- JS would emit key C major with confidence `max(0, -∞) = 0` and no
          -- alternate, which is what this branch returns.
          some ⟨noteName 0, .major, AffScore.constQ 0, none⟩

/-! ### Embedding of the fragment matcher -/

/-- Decimal rendering of a natural number, as JS template interpolation
produces (structural fuel recursion so that it reduces in the kernel). -/
def natToStrAux : Nat → Nat → List Char
  | 0, _ => []
  | fuel + 1, n =>
      if n < 10 then [Char.ofNat (48 + n)]
      else natToStrAux fuel (n / 10) ++ [Char.ofNat (48 + n % 10)]

/-- Decimal rendering of a natural number. -/
def natToStr (n : Nat) : String := ⟨natToStrAux (n + 1) n⟩

/-- Rational from a natural number (used for the score fractions). -/
def qOfNat (n : Nat) : Q := ⟨(n : Int), 1⟩

/-- The `enharmonicMap` of `normalizeChord`, in object-literal order. -/
def enharmonicPairs : List (String × String) :=
  [("Db", "C#"), ("Eb", "D#"), ("Gb", "F#"), ("Ab", "G#"), ("Bb", "A#")]

/-- `normalizeChord`: trim, flat→sharp prefix conversion, then the
suffix simplifications `maj7→ε`, `7→ε`, `m7→m`, `dim7→dim`,
`sus2/sus4→ε` applied in that order.  The JS `replace(flat, sharp)` call
replaces the first occurrence, which under the `startsWith` guard is the
prefix. -/
def normalizeChord (chord : String) : String :=
  let n0 := jsTrim chord
  let n1 := enharmonicPairs.foldl
    (fun s p => if jsStartsWith s p.1 then p.2 ++ jsDropLeft s p.1.data.length else s) n0
  let n2 := if jsEndsWith n1 "maj7" then jsDropRight n1 4 else n1
  let n3 := if jsEndsWith n2 "7" then jsDropRight n2 1 else n2
  let n4 := if jsEndsWith n3 "m7" then jsDropRight n3 2 ++ "m" else n3
  let n5 := if jsEndsWith n4 "dim7" then jsDropRight n4 4 ++ "dim" else n4
  let n6 := if jsEndsWith n5 "sus2" || jsEndsWith n5 "sus4" then jsDropRight n5 4 else n5
  n6

/-- The `relativePairs` table of `chordsMatch`. -/
def relativePairs : List (String × String) :=
  [("C", "Am"), ("G", "Em"), ("D", "Bm"), ("A", "F#m"),
   ("E", "C#m"), ("F", "Dm"), ("Bb", "Gm")]

/-- `chordsMatch`: equality after normalization, or a relative
major/minor pair. -/
def chordsMatch (a b : String) : Bool :=
  let normA := normalizeChord a
  let normB := normalizeChord b
  if normA = normB then true
  else relativePairs.any (fun p =>
    (normA == p.1 && normB == p.2) || (normA == p.2 && normB == p.1))

/-- First-insertion-order deduplication, as `[...new Set(l)]`. -/
def jsSetDedup (l : List String) : List String :=
  l.foldl (fun acc x => if x ∈ acc then acc else acc ++ [x]) []

/-- Positional matches of the detected window against the song chords at
offset `i` (the inner `for j` loop). -/
def countWindowMatches (detected song : List String) (i : Nat) : Nat :=
  ((detected.zip (song.drop i)).filter (fun p => chordsMatch p.1 p.2)).length

/-- Result of `calculateMatchScore`. -/
structure MatchScoreResult where
  score : Q
  matchedCount : Nat
deriving DecidableEq, Repr

/-- `calculateMatchScore`.  The sliding-window loop
`for (i = 0; i <= song.length - detected.length; i++)` does not execute
when the detected window is longer than the song, hence the guarded
offset list. -/
def calculateMatchScore (detectedChords songChords : List String) : MatchScoreResult :=
  if detectedChords.length = 0 ∨ songChords.length = 0 then ⟨0, 0⟩
  else
    let detected := detectedChords.map normalizeChord
    let song := songChords.map normalizeChord
    let offsets : List Nat :=
      if detected.length ≤ song.length then
        List.range (song.length - detected.length + 1)
      else []
    let bestMatchCount :=
      offsets.foldl (fun best i => max best (countWindowMatches detected song i)) 0
    let uniqueSongChords := jsSetDedup song
    let uniqueDetectedChords := jsSetDedup detected
    let chordOverlap := (uniqueSongChords.filter
      (fun sc => uniqueDetectedChords.any (fun dc => chordsMatch dc sc))).length
    let sequenceScore :=
      if 0 < detected.length then Q.div (qOfNat bestMatchCount) (qOfNat detected.length)
      else 0
    let overlapScore :=
      if 0 < uniqueSongChords.length then
        Q.div (qOfNat chordOverlap) (qOfNat uniqueSongChords.length)
      else 0
    let finalScore := sequenceScore * 0.7 + overlapScore * 0.3
    ⟨if Q.blt finalScore 1 then finalScore else 1, bestMatchCount⟩

/-- Catalogue difficulty tiers. -/
inductive Difficulty where
  | beginner
  | easy
  | intermediate
deriving DecidableEq, Repr

/-- The `difficultyOrder` map of `findSongsByKey`. -/
def difficultyOrder : Difficulty → Nat
  | .beginner => 0
  | .easy => 1
  | .intermediate => 2

/-- Catalogue entry (`Song` of `songDatabase.ts`).  The `tempo`, `tags`
and `funFact` fields are never read by any embedded function and are
omitted. -/
structure Song where
  id : String
  title : String
  artist : String
  difficulty : Difficulty
  chords : List String
  key : String
  mode : Mode
deriving DecidableEq, Repr

/-- Match confidence tier. -/
inductive Confidence where
  | high
  | medium
  | low
deriving DecidableEq, Repr

/-- `SongMatch`. -/
structure SongMatch where
  song : Song
  score : Q
  matchedChords : Nat
  totalChords : Nat
  confidence : Confidence
  reason : String
deriving DecidableEq, Repr

/-- `keyMatches`: the key-compatibility check of the fragment matcher.
`replace('#','').replace('b','')` removes first occurrences. -/
def keyMatches (detectedKey : Option String) (detectedMode : Option Mode)
    (song : Song) : Bool :=
  match detectedKey with
  | none => true
  | some dk =>
      let normalizedDetected := String.mk (removeFirstChar 'b' (removeFirstChar '#' dk.data))
      let normalizedSong := String.mk (removeFirstChar 'b' (removeFirstChar '#' song.key.data))
      if normalizedDetected = normalizedSong
          ∧ (detectedMode = none ∨ detectedMode = some song.mode) then true
      else true

/-- `SONG_DATABASE` of `src/lib/data/songDatabase.ts`, in file order. -/
def SONG_DATABASE : List Song :=
  [⟨"twinkle-twinkle", "Twinkle Twinkle Little Star", "Traditional", .beginner,
    ["C", "F", "C", "G", "C", "F", "C", "G", "C"], "C", .major⟩,
   ⟨"mary-had-a-little-lamb", "Mary Had a Little Lamb", "Traditional", .beginner,
    ["C", "G", "C"], "C", .major⟩,
   ⟨"hot-cross-buns", "Hot Cross Buns", "Traditional", .beginner,
    ["C", "G", "C"], "C", .major⟩,
   ⟨"happy-birthday", "Happy Birthday", "Traditional", .beginner,
    ["C", "G", "C", "F", "C", "G", "C"], "C", .major⟩,
   ⟨"jingle-bells", "Jingle Bells", "James Lord Pierpont", .beginner,
    ["C", "F", "C", "G", "C"], "C", .major⟩,
   ⟨"old-macdonald", "Old MacDonald Had a Farm", "Traditional", .beginner,
    ["G", "C", "G", "D", "G"], "G", .major⟩,
   ⟨"london-bridge", "London Bridge Is Falling Down", "Traditional", .beginner,
    ["C", "G", "C"], "C", .major⟩,
   ⟨"let-it-be", "Let It Be", "The Beatles", .easy,
    ["C", "G", "Am", "F", "C", "G", "F", "C"], "C", .major⟩,
   ⟨"imagine", "Imagine", "John Lennon", .easy,
    ["C", "F", "C", "F", "Am", "Dm", "G", "C"], "C", .major⟩,
   ⟨"hey-jude", "Hey Jude", "The Beatles", .easy,
    ["C", "G", "G", "C", "F", "C", "G", "C"], "C", .major⟩,
   ⟨"stand-by-me", "Stand By Me", "Ben E. King", .easy,
    ["C", "Am", "F", "G", "C"], "C", .major⟩,
   ⟨"house-of-the-rising-sun", "House of the Rising Sun", "The Animals", .easy,
    ["Am", "C", "D", "F", "Am", "C", "E", "Am"], "A", .minor⟩,
   ⟨"love-me-do", "Love Me Do", "The Beatles", .easy,
    ["G", "C", "G", "C", "G", "D", "C", "G"], "G", .major⟩,
   ⟨"knockin-on-heavens-door", "Knockin\x27 on Heaven\x27s Door", "Bob Dylan", .easy,
    ["G", "D", "Am", "G", "D", "C"], "G", .major⟩,
   ⟨"wonderwall", "Wonderwall", "Oasis", .easy,
    ["Em", "G", "D", "A"], "E", .minor⟩,
   ⟨"hallelujah", "Hallelujah", "Leonard Cohen", .easy,
    ["C", "Am", "C", "Am", "F", "G", "C", "G"], "C", .major⟩,
   ⟨"fur-elise", "FÃ¼r Elise", "Beethoven", .intermediate,
    ["Am", "E", "Am", "C", "G", "Am", "E", "Am"], "A", .minor⟩,
   ⟨"canon-in-d", "Canon in D", "Pachelbel", .intermediate,
    ["D", "A", "Bm", "F#m", "G", "D", "G", "A"], "D", .major⟩,
   ⟨"ode-to-joy", "Ode to Joy", "Beethoven", .beginner,
    ["C", "G", "C", "G", "C"], "C", .major⟩,
   ⟨"let-it-go", "Let It Go", "Frozen", .intermediate,
    ["Am", "F", "G", "C", "Am", "F", "G", "Em"], "A", .minor⟩,
   ⟨"shallow", "Shallow", "Lady Gaga & Bradley Cooper", .intermediate,
    ["Em", "D", "G", "C", "Em", "D", "Am"], "G", .major⟩,
   ⟨"a-thousand-years", "A Thousand Years", "Christina Perri", .easy,
    ["C", "G", "Em", "D"], "C", .major⟩,
   ⟨"counting-stars", "Counting Stars", "OneRepublic", .easy,
    ["Am", "C", "G", "F"], "A", .minor⟩,
   ⟨"someone-like-you", "Someone Like You", "Adele", .easy,
    ["A", "E", "F#m", "D"], "A", .major⟩,
   ⟨"horse-with-no-name", "A Horse with No Name", "America", .beginner,
    ["Em", "D"], "E", .minor⟩,
   ⟨"leaving-on-a-jet-plane", "Leaving on a Jet Plane", "John Denver", .easy,
    ["G", "C", "G", "C", "G", "D"], "G", .major⟩,
   ⟨"country-roads", "Take Me Home, Country Roads", "John Denver", .easy,
    ["G", "Em", "D", "C", "G"], "G", .major⟩,
   ⟨"wagon-wheel", "Wagon Wheel", "Old Crow Medicine Show", .easy,
    ["G", "D", "Em", "C"], "G", .major⟩]

/-- `findMatchingSongs`.  Default options: `minScore = 0.3`,
`maxResults = 5`, no difficulty filter.  The per-song `continue`/`push`
loop is embedded as a `filterMap` in catalogue order, followed by the
stable descending sort on `score` and `slice(0, maxResults)`. -/
def findMatchingSongs (detectedChords : List String)
    (detectedKey : Option String := none) (detectedMode : Option Mode := none)
    (minScore : Q := 0.3) (maxResults : Nat := 5)
    (difficulty : Option Difficulty := none) : List SongMatch :=
  if detectedChords.length < 2 then []
  else
    let matchList := SONG_DATABASE.filterMap (fun song =>
      if (match difficulty with
          | some d => song.difficulty != d
          | none => false) then none
      else if keyMatches detectedKey detectedMode song = false then none
      else
        let r := calculateMatchScore detectedChords song.chords
        if Q.ble minScore r.score then
          let conf : Confidence :=
            if Q.ble 0.7 r.score then .high
            else if Q.ble 0.5 r.score then .medium
            else .low
          let reason : String :=
            if Q.ble 0.7 r.score then
              "Strong chord progression match (" ++ natToStr r.matchedCount
                ++ "/" ++ natToStr detectedChords.length ++ " chords)"
            else if Q.ble 0.5 r.score then
              "Good chord overlap with " ++ song.title
            else "Partial match - similar chords detected"
          some ⟨song, r.score, r.matchedCount, song.chords.length, conf, reason⟩
        else none)
    let sorted := sortByKeyDesc (fun m => m.score) matchList
    sorted.take maxResults

/-- Stable insertion for the ascending difficulty sort of
`findSongsByKey` (JS comparator `a - b`). -/
def insertByKeyAsc (f : α → Nat) (x : α) : List α → List α
  | [] => [x]
  | y :: ys => if f y ≤ f x then y :: insertByKeyAsc f x ys else x :: y :: ys

/-- Stable ascending sort by a natural-number key. -/
def sortByKeyAsc (f : α → Nat) : List α → List α
  | [] => []
  | x :: xs => insertByKeyAsc f x (sortByKeyAsc f xs)

/-- `findSongsByKey`. -/
def findSongsByKey (key : String) (mode : Mode) (maxResults : Nat := 5)
    (difficulty : Option Difficulty := none) : List Song :=
  let songs := SONG_DATABASE.filter (fun song =>
    (normalizeChord song.key == normalizeChord key) && (song.mode == mode)
      && (match difficulty with
          | none => true
          | some d => song.difficulty == d))
  let sorted := sortByKeyAsc (fun s => difficultyOrder s.difficulty) songs
  sorted.take maxResults

/-- Result of `suggestSongsFromChords`; `matchList` models the source's
`matches` field (`matches` is a reserved word in Lean). -/
structure SuggestResult where
  matchList : List SongMatch
  suggestions : List Song
  message : String
deriving DecidableEq, Repr

/-- `suggestSongsFromChords`. -/
def suggestSongsFromChords (detectedChords : List String)
    (detectedKey : Option String := none) (detectedMode : Option Mode := none) :
    SuggestResult :=
  let matchList := findMatchingSongs detectedChords detectedKey detectedMode
  match matchList.head? with
  | some m0 =>
      if m0.confidence = .high then
        ⟨matchList, [], "This sounds like \"" ++ m0.song.title ++ "\"!"⟩
      else
        ⟨matchList, [], "Could be one of these songs..."⟩
  | none =>
      match detectedKey, detectedMode with
      | some dk, some dm =>
          let keySongs := findSongsByKey dk dm
          ⟨[], keySongs,
            "Playing in " ++ dk ++ " " ++ dm.str ++ ". Try one of these songs:"⟩
      | _, _ =>
          ⟨[], (SONG_DATABASE.filter (fun s => s.difficulty == .beginner)).take 5,
            "Keep playing! Here are some beginner songs to try:"⟩

/-! ### Specification-side definitions

These follow the wording of the specification (claims C1/C3): maximum
positional matches over all valid sliding-window offsets, fraction of the
entry's unique chords matched by the detected set, and the clamped
`0.7·sequence + 0.3·overlap` combination. -/

/-- Smaller of two rationals. -/
def qMin (x y : Q) : Q := if Q.blt x y then x else y

/-- Larger of two rationals. -/
def qMax (x y : Q) : Q := if Q.blt x y then y else x

/-- Sequence score as the specification words it: the maximum number of
positional matches over every offset at which the detected window fits
inside the entry's chord list, divided by the detected length. -/
def specSequenceScore (detected song : List String) : Q :=
  let dn := detected.map normalizeChord
  let sn := song.map normalizeChord
  let validOffsets :=
    (List.range (sn.length + 1)).filter (fun i => decide (i + dn.length ≤ sn.length))
  let best := (validOffsets.map (fun i => countWindowMatches dn sn i)).foldr max 0
  Q.div (qOfNat best) (qOfNat dn.length)

/-- Overlap score as the specification words it: the fraction of the
entry's unique chords that match some chord of the detected set. -/
def specOverlapScore (detected song : List String) : Q :=
  let dn := jsSetDedup (detected.map normalizeChord)
  let sn := jsSetDedup (song.map normalizeChord)
  Q.div
    (qOfNat ((sn.filter (fun sc => dn.any (fun dc => chordsMatch dc sc))).length))
    (qOfNat sn.length)

/-- Combined score as the specification words it:
`0.7×sequence + 0.3×overlap`, clamped to `[0, 1]`. -/
def specCombinedScore (detected song : List String) : Q :=
  qMax 0 (qMin 1 (0.7 * specSequenceScore detected song
    + 0.3 * specOverlapScore detected song))

/-- The nine template qualities the specification says are scored
(claim C2), in its order. -/
def specNineQualities : List ChordQuality :=
  [.major, .minor, .dom7, .maj7, .min7, .dim, .aug, .sus2, .sus4]

/-! ### Supporting lemmas for the fragment-matcher claims -/

theorem keyMatches_true (dk : Option String) (dm : Option Mode) (s : Song) :
    keyMatches dk dm s = true := by
  unfold keyMatches
  cases dk with
  | none => rfl
  | some k => exact ite_self true

theorem findMatchingSongs_short {d : List String} (dk : Option String)
    (dm : Option Mode) (ms : Q) (mr : Nat) (df : Option Difficulty)
    (h : d.length < 2) : findMatchingSongs d dk dm ms mr df = [] := by
  unfold findMatchingSongs
  rw [if_pos h]

/-- C8 — Key compatibility is a no-op: `keyMatches` returns `true` on every
input, and consequently `findMatchingSongs` is entirely independent of the
detected key and mode. -/
theorem C8_key_compat_noop :
    (∀ (dk : Option String) (dm : Option Mode) (s : Song), keyMatches dk dm s = true)
    ∧ ∀ (d : List String) (dk : Option String) (dm : Option Mode) (ms : Q)
        (mr : Nat) (df : Option Difficulty),
        findMatchingSongs d dk dm ms mr df = findMatchingSongs d none none ms mr df := by
  refine ⟨keyMatches_true, ?_⟩
  intro d dk dm ms mr df
  unfold findMatchingSongs
  simp only [keyMatches_true]

/-- C4 — Silent input: any chroma whose total energy lies below the key
detector's `0.01` threshold yields no key estimate, and any chroma below
the chord detector's `0.05` threshold yields the empty chord result (an
all-zero chroma has total energy `0` and satisfies both). -/
theorem C4_silence_empty (chroma : List Q) :
    (chroma.foldl (· + ·) (0 : Q) < (0.01 : Q) → detectKeyFromChroma chroma = none)
    ∧ (chroma.foldl (· + ·) (0 : Q) < (0.05 : Q)
        → detectChordWithAlternatives chroma = ⟨none, []⟩) := by
  constructor
  · intro h
    have h' : Q.blt (chroma.foldl (· + ·) (0 : Q)) (0.01 : Q) = true := h
    unfold detectKeyFromChroma
    split
    · rfl
    · simp [h']
  · intro h
    have h' : Q.blt (chroma.foldl (· + ·) (0 : Q)) (0.05 : Q) = true := h
    unfold detectChordWithAlternatives
    split
    · rfl
    · simp [h']

/-- C4 witness: the all-zero 12-element chroma. -/
theorem C4_silence_empty_witness :
    detectKeyFromChroma (List.replicate 12 (0 : Q)) = none
    ∧ detectChordWithAlternatives (List.replicate 12 (0 : Q)) = ⟨none, []⟩ :=
  ⟨(C4_silence_empty _).1 (by decide), (C4_silence_empty _).2 (by decide)⟩

/-- C7 counterexample — the progression predictor does not treat `"Am7"`
like `"Am"`: in A minor, `"Am"` yields predictions but `"Am7"` yields
none. -/
theorem C7_cex_Am7_not_Am :
    ¬ (predictNextChords "Am7" "A" Mode.minor
        = predictNextChords "Am" "A" Mode.minor) := by decide

/-- C7 (amended) — the lookup equates a chord label with the label
obtained by deleting its first `m` (conflating parallel major/minor),
not with its extension-stripped form: for every key root and mode,
`"Am7"` is looked up as `"A7"` (and matches nothing, giving no
predictions), while `"Am"` in A minor predicts `["Dm", "F"]`. -/
theorem C7_first_m_deletion :
    (∀ keyRoot, keyRoot ∈ NOTE_NAMES → ∀ mode, mode ∈ [Mode.major, Mode.minor] →
        predictNextChords "Am7" keyRoot mode = predictNextChords "A7" keyRoot mode
        ∧ predictNextChords "Am7" keyRoot mode = [])
    ∧ predictNextChords "Am" "A" Mode.minor = ["Dm", "F"] := by decide

/-- C7 witness: the amended equivalence instantiated at key C major. -/
theorem C7_first_m_deletion_witness :
    predictNextChords "Am7" "C" Mode.major = predictNextChords "A7" "C" Mode.major :=
  (C7_first_m_deletion.1 "C" (by decide) Mode.major (by decide)).1

/-- C6 counterexample — with fewer than two detected chords and a detected
key, the matcher does not return empty suggestions with a keep-playing
message: it returns key-based suggestions and a "Playing in …" message. -/
theorem C6_cex_short_window :
    (suggestSongsFromChords ["C"] (some "C") (some Mode.major)).suggestions ≠ []
    ∧ (suggestSongsFromChords ["C"] (some "C") (some Mode.major)).message
        ≠ "Keep playing! Here are some beginner songs to try:" := by decide

/-- C6 (amended) — with fewer than two chords the match list is always
empty; if both a key and a mode were detected the result carries the
key-based suggestions and the "Playing in …" message, otherwise the
beginner-tier suggestions and the keep-playing message. -/
theorem C6_short_window_fallback (d : List String) (dk : Option String)
    (dm : Option Mode) (h : d.length < 2) :
    (suggestSongsFromChords d dk dm).matchList = []
    ∧ (∀ k m, dk = some k → dm = some m →
        (suggestSongsFromChords d dk dm).suggestions = findSongsByKey k m
        ∧ (suggestSongsFromChords d dk dm).message
            = "Playing in " ++ k ++ " " ++ m.str ++ ". Try one of these songs:")
    ∧ (dk = none ∨ dm = none →
        (suggestSongsFromChords d dk dm).suggestions
            = (SONG_DATABASE.filter (fun s => s.difficulty == .beginner)).take 5
        ∧ (suggestSongsFromChords d dk dm).message
            = "Keep playing! Here are some beginner songs to try:") := by
  refine ⟨?_, ?_, ?_⟩
  · cases dk <;> cases dm <;>
      simp only [suggestSongsFromChords, findMatchingSongs_short _ _ _ _ _ h, List.head?]
  · intro k m hk hm
    subst hk; subst hm
    constructor <;>
      simp only [suggestSongsFromChords, findMatchingSongs_short _ _ _ _ _ h, List.head?]
  · intro hnone
    rcases hnone with h1 | h1
    · subst h1
      cases dm <;> constructor <;>
        simp only [suggestSongsFromChords, findMatchingSongs_short _ _ _ _ _ h, List.head?]
    · subst h1
      cases dk <;> constructor <;>
        simp only [suggestSongsFromChords, findMatchingSongs_short _ _ _ _ _ h, List.head?]

/-- C6 witness: a one-chord window with a detected key (key-based branch)
and without one (keep-playing branch). -/
theorem C6_short_window_fallback_witness :
    (suggestSongsFromChords ["C"] (some "C") (some Mode.major)).matchList = []
    ∧ (suggestSongsFromChords ["C"] (some "C") (some Mode.major)).suggestions
        = findSongsByKey "C" Mode.major
    ∧ (suggestSongsFromChords ["C"] none none).message
        = "Keep playing! Here are some beginner songs to try:" :=
  ⟨(C6_short_window_fallback ["C"] (some "C") (some Mode.major) (by decide)).1,
   ((C6_short_window_fallback ["C"] (some "C") (some Mode.major) (by decide)).2.1
      "C" Mode.major rfl rfl).1,
   ((C6_short_window_fallback ["C"] none none (by decide)).2.2 (Or.inl rfl)).2⟩

/-- C3 — Feeding any catalogue entry's own progression (length ≥ 2) to the
matcher gives that entry a sequence score of `1`, a combined score of `1`,
and a reported match at confidence tier `high`. -/
theorem C3_exact_progression_high :
    ∀ s ∈ SONG_DATABASE, 2 ≤ s.chords.length →
      specSequenceScore s.chords s.chords = 1
      ∧ (calculateMatchScore s.chords s.chords).score = 1
      ∧ ∃ m ∈ findMatchingSongs s.chords, m.song = s ∧ m.confidence = .high
          ∧ m.matchedChords = s.chords.length := by decide

/-- C3 witness: the `let-it-be` entry. -/
theorem C3_exact_progression_high_witness :
    ∃ m ∈ findMatchingSongs ["C", "G", "Am", "F", "C", "G", "F", "C"],
      m.song.id = "let-it-be" ∧ m.confidence = .high := by
  have h := C3_exact_progression_high
    ⟨"let-it-be", "Let It Be", "The Beatles", .easy,
      ["C", "G", "Am", "F", "C", "G", "F", "C"], "C", .major⟩
    (by decide) (by decide)
  obtain ⟨m, hm, hs, hc, _⟩ := h.2.2
  exact ⟨m, hm, by rw [hs], hc⟩

/-! ### Canonicity and value lemmas for sums and normalization (C5) -/

theorem Q.foldl_add_canon (l : List Q) (z : Q) (hz : z.IsCanon) :
    (l.foldl (· + ·) z).IsCanon := by
  induction l generalizing z with
  | nil => exact hz
  | cons x xs ih => exact ih _ (Q.add_canon z x)

theorem Q.val_foldl_add (l : List Q) (z : Q) (hz : z.IsCanon)
    (hl : ∀ x ∈ l, x.IsCanon) :
    (l.foldl (· + ·) z).val = (l.map Q.val).foldl (· + ·) z.val := by
  induction l generalizing z with
  | nil => rfl
  | cons x xs ih =>
      have hx : x.IsCanon := hl x (List.mem_cons_self x xs)
      have hzx : (z + x).IsCanon := Q.add_canon z x
      have : ((z + x : Q)).val = z.val + x.val := Q.val_add hz.1.ne' hx.1.ne'
      simp only [List.foldl_cons, List.map_cons]
      rw [ih _ hzx (fun y hy => hl y (List.mem_cons_of_mem _ hy)), this]

theorem foldl_add_rat (l : List ℚ) (a : ℚ) : l.foldl (· + ·) a = a + l.sum := by
  induction l generalizing a with
  | nil => simp
  | cons x xs ih => rw [List.foldl_cons, List.sum_cons, ih]; ring

/-- Scaling every chroma entry by `k` scales the total energy by `k`. -/
theorem val_sum_smul (l : List Q) (k : Q) (hl : ∀ x ∈ l, x.IsCanon) :
    ((l.map (fun c => k * c)).foldl (· + ·) (0 : Q)).val
      = k.val * ((l.foldl (· + ·) (0 : Q)).val) := by
  rw [Q.val_foldl_add _ _ (Q.ofNat_canon 0)
      (by intro x hx
          obtain ⟨c, hc, rfl⟩ := List.mem_map.mp hx
          exact Q.mul_canon k c),
    Q.val_foldl_add _ _ (Q.ofNat_canon 0) hl,
    foldl_add_rat, foldl_add_rat, List.map_map]
  have hmv : (l.map (Q.val ∘ fun c => k * c)) = l.map (fun c => k.val * c.val) := by
    apply List.map_congr_left
    intro c _
    exact Q.val_mul k c
  rw [hmv, Q.val_ofNat]
  have hsum : (l.map (fun c => k.val * c.val)).sum = k.val * (l.map Q.val).sum := by
    rw [← List.sum_map_mul_left]
  rw [hsum]
  push_cast
  ring

/-- Normalizing is scale invariant: dividing the scaled entries by the
scaled total gives exactly the canonical fractions of the unscaled
normalization. -/
theorem normalized_scale_invariant (chroma : List Q) (k : Q)
    (hc : ∀ x ∈ chroma, x.IsCanon) (hk : k.IsCanon) (hkpos : (0 : Q) < k) :
    (chroma.map (fun c => k * c)).map
        (fun c => Q.div c ((chroma.map (fun c => k * c)).foldl (· + ·) (0 : Q)))
      = chroma.map (fun c => Q.div c (chroma.foldl (· + ·) (0 : Q))) := by
  rw [List.map_map]
  apply List.map_congr_left
  intro c hcm
  apply Q.canon_val_inj (Q.div_canon _ _) (Q.div_canon _ _)
  have hS := Q.foldl_add_canon chroma 0 (Q.ofNat_canon 0)
  have hS' := Q.foldl_add_canon (chroma.map (fun c => k * c)) 0 (Q.ofNat_canon 0)
  have h1 : ((fun c => Q.div c ((chroma.map (fun c => k * c)).foldl (· + ·) 0))
      ((fun c => k * c) c)).val
      = ((k * c : Q)).val / (((chroma.map (fun c => k * c)).foldl (· + ·) (0 : Q)).val) :=
    Q.val_div (Q.mul_canon k c).1.ne' hS'.1.ne'
  have h2 : ((fun c => Q.div c (chroma.foldl (· + ·) 0)) c).val
      = c.val / ((chroma.foldl (· + ·) (0 : Q)).val) :=
    Q.val_div (hc c hcm).1.ne' hS.1.ne'
  rw [h1, h2, val_sum_smul _ _ hc, Q.hmul_def, Q.val_mul]
  have hkv : 0 < k.val := by
    have := (Q.blt_iff (x := (0 : Q)) (y := k) Nat.one_pos hk.1).mp hkpos
    rwa [Q.val_ofNat] at this
  rcases eq_or_ne ((chroma.foldl (· + ·) (0 : Q)).val) 0 with hS0 | hS0
  · rw [hS0]
    simp
  · field_simp
    ring

/-- C5 (amended) — scale invariance of the chord detector holds provided
both the original and the scaled chroma pass the `0.05` energy threshold:
the entire result (best chord and alternatives) is unchanged.  (The
unamended claim fails at the threshold; see the counterexample.) -/
theorem C5_scale_invariance (chroma : List Q) (k : Q)
    (hc : ∀ x ∈ chroma, x.IsCanon) (hk : k.IsCanon) (hkpos : (0 : Q) < k)
    (h1 : Q.blt (chroma.foldl (· + ·) (0 : Q)) (0.05 : Q) = false)
    (h2 : Q.blt ((chroma.map (fun c => k * c)).foldl (· + ·) (0 : Q)) (0.05 : Q) = false) :
    detectChordWithAlternatives (chroma.map (fun c => k * c))
      = detectChordWithAlternatives chroma := by
  by_cases hlen : chroma.length = 12
  · unfold detectChordWithAlternatives
    rw [List.length_map]
    rw [if_neg (not_ne_iff.mpr hlen), if_neg (not_ne_iff.mpr hlen)]
    rw [if_neg (by simp [h2]), if_neg (by simp [h1])]
    rw [normalized_scale_invariant chroma k hc hk hkpos]
  · unfold detectChordWithAlternatives
    rw [List.length_map]
    rw [if_pos hlen, if_pos hlen]

/-- C5 counterexample — the claim fails as stated: the C-major template is
a nonzero chroma on which the detector returns a best chord, but scaling
it by the positive constant `0.01` drops the energy below the `0.05`
threshold and the best chord changes to `none`. -/
theorem C5_cex_threshold :
    (0 : Q) < (0.01 : Q)
    ∧ (detectChordWithAlternatives (CHORD_TEMPLATES .major)).chord.isSome = true
    ∧ (detectChordWithAlternatives
          ((CHORD_TEMPLATES .major).map (fun c => (0.01 : Q) * c))).chord
        ≠ (detectChordWithAlternatives (CHORD_TEMPLATES .major)).chord := by decide

/-- C5 witness: the all-ones chroma scaled by `2`. -/
theorem C5_scale_invariance_witness :
    detectChordWithAlternatives ((List.replicate 12 (1 : Q)).map (fun c => (2 : Q) * c))
      = detectChordWithAlternatives (List.replicate 12 (1 : Q)) :=
  C5_scale_invariance (List.replicate 12 (1 : Q)) 2
    (by decide) (by decide) (by decide) (by decide) (by decide)

/-! ### Selection lemmas: sort head, running best, thresholds (C2, C10)

`runBest` is the online "replace on strictly better" selection that
`detectChordFromChroma` performs; `topBest` is a foldr-style restatement of
the same first-maximum; both are related to the head of the stable
descending sort used by `detectChordWithAlternatives`.  All comparisons go
through `Q.blt` on keys with positive denominators, hence are exactly the
comparisons of the denoted rational values. -/

theorem Q.blt_eq_decide {x y : Q} (hx : 0 < x.den) (hy : 0 < y.den) :
    Q.blt x y = decide (x.val < y.val) := by
  by_cases h : x.val < y.val
  · rw [(Q.blt_iff hx hy).mpr h, decide_eq_true h]
  · have h1 : Q.blt x y = false := by
      cases hb : Q.blt x y
      · rfl
      · exact absurd ((Q.blt_iff hx hy).mp hb) h
    rw [h1, decide_eq_false h]

theorem Q.ble_eq_decide {x y : Q} (hx : 0 < x.den) (hy : 0 < y.den) :
    Q.ble x y = decide (x.val ≤ y.val) := by
  by_cases h : x.val ≤ y.val
  · rw [(Q.ble_iff hx hy).mpr h, decide_eq_true h]
  · have h1 : Q.ble x y = false := by
      cases hb : Q.ble x y
      · rfl
      · exact absurd ((Q.ble_iff hx hy).mp hb) h
    rw [h1, decide_eq_false h]

theorem Q.blt_false_iff {x y : Q} (hx : 0 < x.den) (hy : 0 < y.den) :
    Q.blt x y = false ↔ y.val ≤ x.val := by
  rw [Q.blt_eq_decide hx hy, decide_eq_false_iff_not, not_lt]

theorem Q.ble_false_iff {x y : Q} (hx : 0 < x.den) (hy : 0 < y.den) :
    Q.ble x y = false ↔ y.val < x.val := by
  rw [Q.ble_eq_decide hx hy, decide_eq_false_iff_not, not_le]

/-- Online selection with strict improvement, as `detectChordFromChroma`
performs on the candidates that pass its threshold. -/
def runBest (f : α → Q) : α → List α → α
  | x, [] => x
  | x, y :: ys => runBest f (if Q.blt (f x) (f y) then y else x) ys

/-- First maximum, foldr style. -/
def topBest (f : α → Q) : α → List α → α
  | x, [] => x
  | x, y :: ys => if Q.ble (f (topBest f y ys)) (f x) then x else topBest f y ys

/-- First maximum of a possibly empty list. -/
def listTop (f : α → Q) : List α → Option α
  | [] => none
  | x :: xs => some (topBest f x xs)

theorem topBest_seed_le (f : α → Q) (hpos : ∀ z, 0 < (f z).den) (l : List α)
    (x : α) : (f x).val ≤ (f (topBest f x l)).val := by
  induction l generalizing x with
  | nil => exact le_refl _
  | cons y ys ih =>
      show (f x).val ≤ (f (if Q.ble (f (topBest f y ys)) (f x) then x
        else topBest f y ys)).val
      cases hb : Q.ble (f (topBest f y ys)) (f x) with
      | true => simp
      | false =>
          have hlt := (Q.ble_false_iff (hpos _) (hpos _)).mp hb
          simp only [Bool.false_eq_true, if_false]
          linarith

theorem topBest_mem_le (f : α → Q) (hpos : ∀ z, 0 < (f z).den) (l : List α)
    (x z : α) (hz : z ∈ x :: l) : (f z).val ≤ (f (topBest f x l)).val := by
  induction l generalizing x with
  | nil =>
      rcases List.mem_singleton.mp hz with rfl
      exact le_refl _
  | cons y ys ih =>
      show (f z).val ≤ (f (if Q.ble (f (topBest f y ys)) (f x) then x
        else topBest f y ys)).val
      rcases List.mem_cons.mp hz with rfl | hz2
      · cases hb : Q.ble (f (topBest f y ys)) (f z) with
        | true => simp
        | false =>
            have hlt := (Q.ble_false_iff (hpos _) (hpos _)).mp hb
            simp only [Bool.false_eq_true, if_false]
            linarith
      · have hy := ih y hz2
        cases hb : Q.ble (f (topBest f y ys)) (f x) with
        | true =>
            have hle := (Q.ble_iff (hpos _) (hpos _)).mp hb
            simp only [if_true]
            linarith
        | false =>
            simp only [Bool.false_eq_true, if_false]
            exact hy

theorem runBest_eq_topBest (f : α → Q) (hpos : ∀ z, 0 < (f z).den)
    (l : List α) (x : α) : runBest f x l = topBest f x l := by
  induction l generalizing x with
  | nil => rfl
  | cons y ys ih =>
      show runBest f (if Q.blt (f x) (f y) then y else x) ys
        = if Q.ble (f (topBest f y ys)) (f x) then x else topBest f y ys
      rw [ih]
      cases hxy : Q.blt (f x) (f y) with
      | true =>
          have hlt := (Q.blt_iff (hpos _) (hpos _)).mp hxy
          have hym := topBest_seed_le f hpos ys y
          simp only [if_true]
          rw [if_neg (by
            rw [Q.ble_eq_decide (hpos _) (hpos _), decide_eq_true_eq]
            intro hle
            linarith)]
      | false =>
          have hyx := (Q.blt_false_iff (hpos _) (hpos _)).mp hxy
          simp only [Bool.false_eq_true, if_false]
          cases ys with
          | nil =>
              show x = if Q.ble (f y) (f x) then x else y
              rw [if_pos (by
                rw [Q.ble_eq_decide (hpos _) (hpos _)]
                exact decide_eq_true (by linarith))]
          | cons z zs =>
              show (if Q.ble (f (topBest f z zs)) (f x) then x else topBest f z zs)
                = if Q.ble (f (if Q.ble (f (topBest f z zs)) (f y) then y
                    else topBest f z zs)) (f x) then x else
                    (if Q.ble (f (topBest f z zs)) (f y) then y else topBest f z zs)
              cases hmy : Q.ble (f (topBest f z zs)) (f y) with
              | true =>
                  have h1 := (Q.ble_iff (hpos _) (hpos _)).mp hmy
                  simp only [if_true]
                  rw [if_pos (by
                      rw [Q.ble_eq_decide (hpos _) (hpos _)]
                      exact decide_eq_true (by linarith)),
                    if_pos (by
                      rw [Q.ble_eq_decide (hpos _) (hpos _)]
                      exact decide_eq_true (by linarith))]
              | false =>
                  simp only [Bool.false_eq_true, if_false]

theorem topBest_mem (f : α → Q) (l : List α) (x : α) :
    topBest f x l ∈ x :: l := by
  induction l generalizing x with
  | nil => exact List.mem_singleton.mpr rfl
  | cons y ys ih =>
      show (if Q.ble (f (topBest f y ys)) (f x) then x else topBest f y ys) ∈ _
      split
      · exact List.mem_cons_self _ _
      · exact List.mem_cons_of_mem _ (ih y)

theorem insertByKeyDesc_head (f : α → Q) (x z : α) (t : List α) :
    (insertByKeyDesc f x (z :: t)).head?
      = some (if Q.blt (f x) (f z) then z else x) := by
  show (if Q.blt (f x) (f z) then z :: insertByKeyDesc f x t else x :: z :: t).head? = _
  split <;> rfl

theorem sortByKeyDesc_insert_head (f : α → Q) (hpos : ∀ z, 0 < (f z).den)
    (l : List α) (x : α) :
    (insertByKeyDesc f x (sortByKeyDesc f l)).head? = some (topBest f x l) := by
  induction l generalizing x with
  | nil => rfl
  | cons y ys ih =>
      have ihy := ih y
      show (insertByKeyDesc f x (insertByKeyDesc f y (sortByKeyDesc f ys))).head?
        = some (topBest f x (y :: ys))
      cases hs : insertByKeyDesc f y (sortByKeyDesc f ys) with
      | nil => rw [hs] at ihy; simp at ihy
      | cons z t =>
          rw [hs] at ihy
          have hz : z = topBest f y ys := by
            simpa using ihy
          rw [insertByKeyDesc_head, hz]
          show _ = some (if Q.ble (f (topBest f y ys)) (f x) then x else topBest f y ys)
          by_cases hxz : (f x).val < (f (topBest f y ys)).val
          · rw [if_pos ((Q.blt_iff (hpos _) (hpos _)).mpr hxz),
              if_neg (fun h =>
                absurd ((Q.ble_iff (hpos _) (hpos _)).mp h) (not_le.mpr hxz))]
          · rw [if_neg (fun h => absurd ((Q.blt_iff (hpos _) (hpos _)).mp h) hxz),
              if_pos ((Q.ble_iff (hpos _) (hpos _)).mpr (not_lt.mp hxz))]

theorem sortByKeyDesc_head (f : α → Q) (hpos : ∀ z, 0 < (f z).den)
    (l : List α) : (sortByKeyDesc f l).head? = listTop f l := by
  cases l with
  | nil => rfl
  | cons x xs => exact sortByKeyDesc_insert_head f hpos xs x

/-- Filtering by a property that separates values (all failures lie below
all successes) does not change the first maximum, as long as the seed
passes. -/
theorem topBest_filter_sep (f : α → Q) (hpos : ∀ z, 0 < (f z).den)
    (P : α → Bool) (θ : ℚ)
    (hdrop : ∀ z, P z = false → (f z).val ≤ θ)
    (hkeep : ∀ z, P z = true → θ < (f z).val) :
    ∀ (l : List α) (x : α), P x = true
      → topBest f x (l.filter P) = topBest f x l := by
  intro l
  induction l with
  | nil => intro x _; rfl
  | cons y ys ih =>
      intro x hx
      cases hy : P y with
      | true =>
          rw [List.filter_cons_of_pos hy]
          show (if Q.ble (f (topBest f y (ys.filter P))) (f x) then x
              else topBest f y (ys.filter P))
            = if Q.ble (f (topBest f y ys)) (f x) then x else topBest f y ys
          rw [ih y hy]
      | false =>
          rw [List.filter_cons_of_neg (by simp [hy])]
          rw [ih x hx]
          cases ys with
          | nil =>
              show x = if Q.ble (f y) (f x) then x else y
              rw [if_pos (by
                rw [Q.ble_eq_decide (hpos _) (hpos _)]
                exact decide_eq_true (by
                  have h1 := hdrop y hy
                  have h2 := hkeep x hx
                  linarith))]
          | cons z zs =>
              by_cases hfz : (z :: zs).filter P = []
              · have hall : ∀ e ∈ z :: zs, P e = false := by
                  intro e he
                  cases hpe : P e with
                  | false => rfl
                  | true =>
                      exact absurd (List.filter_eq_nil.mp hfz e he) (by simp [hpe])
                have hmem := topBest_mem f (z :: zs) y
                have hdropTop : (f (topBest f y (z :: zs))).val ≤ θ := by
                  rcases List.mem_cons.mp hmem with heq | hmem2
                  · rw [heq]; exact hdrop y hy
                  · exact hdrop _ (hall _ hmem2)
                show topBest f x (z :: zs)
                  = if Q.ble (f (topBest f y (z :: zs))) (f x) then x
                    else topBest f y (z :: zs)
                rw [if_pos (by
                  rw [Q.ble_eq_decide (hpos _) (hpos _)]
                  exact decide_eq_true (by
                    have h2 := hkeep x hx
                    linarith))]
                have hxz : topBest f x (z :: zs) = x := by
                  show (if Q.ble (f (topBest f z zs)) (f x) then x
                    else topBest f z zs) = x
                  have hmem3 := topBest_mem f zs z
                  have hdropz : (f (topBest f z zs)).val ≤ θ :=
                    hdrop _ (hall _ hmem3)
                  rw [if_pos (by
                    rw [Q.ble_eq_decide (hpos _) (hpos _)]
                    exact decide_eq_true (by
                      have h2 := hkeep x hx
                      linarith))]
                exact hxz
              · obtain ⟨k, hk⟩ := List.exists_mem_of_ne_nil _ hfz
                have hkmem := List.mem_filter.mp hk
                have hkv := hkeep k hkmem.2
                have hkle := topBest_mem_le f hpos zs z k
                  (by exact List.mem_cons.mpr (List.mem_cons.mp hkmem.1))
                have htop : topBest f y (z :: zs) = topBest f z zs := by
                  show (if Q.ble (f (topBest f z zs)) (f y) then y
                    else topBest f z zs) = topBest f z zs
                  rw [if_neg (by
                    rw [Q.ble_eq_decide (hpos _) (hpos _), decide_eq_true_eq]
                    intro hle
                    have h1 := hdrop y hy
                    linarith)]
                show topBest f x (z :: zs)
                  = if Q.ble (f (topBest f y (z :: zs))) (f x) then x
                    else topBest f y (z :: zs)
                rw [htop]
                rfl

/-- Filtering by a separating property does not change the first maximum
of the whole list, whenever the filtered list is nonempty. -/
theorem listTop_filter_sep (f : α → Q) (hpos : ∀ z, 0 < (f z).den)
    (P : α → Bool) (θ : ℚ)
    (hdrop : ∀ z, P z = false → (f z).val ≤ θ)
    (hkeep : ∀ z, P z = true → θ < (f z).val) :
    ∀ (l : List α) (c : α), listTop f (l.filter P) = some c
      → listTop f l = some c := by
  intro l
  induction l with
  | nil => intro c hc; simp [listTop] at hc
  | cons x xs ih =>
      intro c hc
      cases hx : P x with
      | true =>
          rw [List.filter_cons_of_pos hx] at hc
          have hc2 : topBest f x (xs.filter P) = c := by
            simpa [listTop] using hc
          show some (topBest f x xs) = some c
          rw [← topBest_filter_sep f hpos P θ hdrop hkeep xs x hx, hc2]
      | false =>
          rw [List.filter_cons_of_neg (by simp [hx])] at hc
          cases xs with
          | nil => simp [listTop] at hc
          | cons y ys =>
              have hne : (y :: ys).filter P ≠ [] := by
                intro hnil
                rw [hnil] at hc
                simp [listTop] at hc
              obtain ⟨k, hk⟩ := List.exists_mem_of_ne_nil _ hne
              have hkmem := List.mem_filter.mp hk
              have hkv := hkeep k hkmem.2
              have hkle := topBest_mem_le f hpos ys y k hkmem.1
              have htop : topBest f x (y :: ys) = topBest f y ys := by
                show (if Q.ble (f (topBest f y ys)) (f x) then x
                  else topBest f y ys) = topBest f y ys
                rw [if_neg (by
                  rw [Q.ble_eq_decide (hpos _) (hpos _), decide_eq_true_eq]
                  intro hle
                  have h1 := hdrop x hx
                  linarith)]
              show some (topBest f x (y :: ys)) = some c
              rw [htop]
              exact ih c hc

/-! ### Chord-detector selection facts (C2, C10) -/

/-- Sorting/selection key of a detected chord: the comparison key of its
confidence score. -/
def chordKeyF : DetectedChord → Q := fun c => Score.key c.confidence

theorem chordKeyF_den_pos : ∀ c : DetectedChord, 0 < (chordKeyF c).den :=
  fun _ => (Q.div_canon _ _).1

theorem q05_key : Q.mul (0.5 : Q) (Q.abs (0.5 : Q)) = ⟨1, 4⟩ := by decide

theorem q04_key : Q.mul (0.4 : Q) (Q.abs (0.4 : Q)) = ⟨4, 25⟩ := by decide

theorem scoreKey_zero : Score.key ⟨0, 1⟩ = (⟨0, 1⟩ : Q) := by decide

theorem blt_zero_of_blt_q14 (K : Q) (h : Q.blt ⟨1, 4⟩ K = true) :
    Q.blt ⟨0, 1⟩ K = true := by
  unfold Q.blt at h ⊢
  rw [decide_eq_true_eq] at h ⊢
  have h2 : (1 : Int) * (K.den : Int) < K.num * 4 := h
  show (0 : Int) * (K.den : Int) < K.num * ((1 : Nat) : Int)
  omega

theorem blt_q425_of_blt_q14 (K : Q) (h : Q.blt ⟨1, 4⟩ K = true) :
    Q.blt ⟨4, 25⟩ K = true := by
  unfold Q.blt at h ⊢
  rw [decide_eq_true_eq] at h ⊢
  have h2 : (1 : Int) * (K.den : Int) < K.num * 4 := h
  show (4 : Int) * (K.den : Int) < K.num * ((25 : Nat) : Int)
  omega

theorem bgt05_to_bgt04 (s : Score) (h : Score.bgtQ s 0.5 = true) :
    Score.bgtQ s 0.4 = true := by
  unfold Score.bgtQ at h ⊢
  rw [q05_key] at h
  rw [q04_key]
  exact blt_q425_of_blt_q14 _ h

theorem blt_zero_of_bgt05 (s : Score) (h : Score.bgtQ s 0.5 = true) :
    Score.blt ⟨0, 1⟩ s = true := by
  unfold Score.bgtQ at h
  rw [q05_key] at h
  unfold Score.blt
  rw [scoreKey_zero]
  exact blt_zero_of_blt_q14 _ h

theorem val_q14 : (⟨1, 4⟩ : Q).val = 1 / 4 := by
  unfold Q.val
  norm_num

theorem val_q425 : (⟨4, 25⟩ : Q).val = 4 / 25 := by
  unfold Q.val
  norm_num

theorem chordKey_le_of_not05 (z : DetectedChord)
    (h : Score.bgtQ z.confidence 0.5 = false) : (chordKeyF z).val ≤ 1 / 4 := by
  unfold Score.bgtQ at h
  rw [q05_key] at h
  have := (Q.blt_false_iff (x := ⟨1, 4⟩) (by norm_num) (chordKeyF_den_pos z)).mp h
  rwa [val_q14] at this

theorem chordKey_gt_of05 (z : DetectedChord)
    (h : Score.bgtQ z.confidence 0.5 = true) : 1 / 4 < (chordKeyF z).val := by
  unfold Score.bgtQ at h
  rw [q05_key] at h
  have := (Q.blt_iff (x := ⟨1, 4⟩) (by norm_num) (chordKeyF_den_pos z)).mp h
  rwa [val_q14] at this

theorem chordKey_le_of_not04 (z : DetectedChord)
    (h : Score.bgtQ z.confidence 0.4 = false) : (chordKeyF z).val ≤ 4 / 25 := by
  unfold Score.bgtQ at h
  rw [q04_key] at h
  have := (Q.blt_false_iff (x := ⟨4, 25⟩) (by norm_num) (chordKeyF_den_pos z)).mp h
  rwa [val_q425] at this

theorem chordKey_gt_of04 (z : DetectedChord)
    (h : Score.bgtQ z.confidence 0.4 = true) : 4 / 25 < (chordKeyF z).val := by
  unfold Score.bgtQ at h
  rw [q04_key] at h
  have := (Q.blt_iff (x := ⟨4, 25⟩) (by norm_num) (chordKeyF_den_pos z)).mp h
  rwa [val_q425] at this

/-- The candidates passing the `0.5` threshold of `detectChordFromChroma`,
in loop order. -/
def chordCandidates05Of (normalizedChroma : List Q) : List DetectedChord :=
  chordCandidatePairs.filterMap (fun rq =>
    let c := candidateAt normalizedChroma rq
    if Score.bgtQ c.1 0.5 then some c.2 else none)

theorem cands05_eq_filter_aux (n : List Q) :
    ∀ pairs : List (Nat × ChordQuality),
      pairs.filterMap (fun rq =>
          let c := candidateAt n rq
          if Score.bgtQ c.1 0.5 then some c.2 else none)
        = (pairs.filterMap (fun rq =>
            let c := candidateAt n rq
            if Score.bgtQ c.1 0.4 then some c.2 else none)).filter
            (fun c => Score.bgtQ c.confidence 0.5) := by
  intro pairs
  induction pairs with
  | nil => rfl
  | cons rq rest ih =>
      have hconf : (candidateAt n rq).2.confidence = (candidateAt n rq).1 := rfl
      cases h5 : Score.bgtQ (candidateAt n rq).1 0.5 with
      | true =>
          have h4 := bgt05_to_bgt04 _ h5
          simp only [List.filterMap_cons, h5, h4, if_true, List.filter_cons, hconf, ih]
      | false =>
          cases h4 : Score.bgtQ (candidateAt n rq).1 0.4 with
          | true =>
              simp only [List.filterMap_cons, h5, h4, if_true, Bool.false_eq_true,
                if_false, List.filter_cons, hconf, ih]
          | false =>
              simp only [List.filterMap_cons, h5, h4, Bool.false_eq_true,
                if_false, ih]

theorem cands05_eq_filter (n : List Q) :
    chordCandidates05Of n
      = (chordCandidatesOf n).filter (fun c => Score.bgtQ c.confidence 0.5) :=
  cands05_eq_filter_aux n chordCandidatePairs

theorem chordFold_from_some (n : List Q) :
    ∀ (pairs : List (Nat × ChordQuality)) (c : DetectedChord),
      pairs.foldl (fun (st : Option DetectedChord × Score) rq =>
          let cc := candidateAt n rq
          if Score.bgtQ cc.1 0.5 then
            if Score.blt st.2 cc.1 then (some cc.2, cc.1) else st
          else st) (some c, c.confidence)
      = (some (runBest chordKeyF c (pairs.filterMap (fun rq =>
            let cc := candidateAt n rq
            if Score.bgtQ cc.1 0.5 then some cc.2 else none))),
         (runBest chordKeyF c (pairs.filterMap (fun rq =>
            let cc := candidateAt n rq
            if Score.bgtQ cc.1 0.5 then some cc.2 else none))).confidence) := by
  intro pairs
  induction pairs with
  | nil => intro c; rfl
  | cons rq rest ih =>
      intro c
      rw [List.foldl_cons]
      cases h5 : Score.bgtQ (candidateAt n rq).1 0.5 with
      | false =>
          simp only [h5, Bool.false_eq_true, if_false, List.filterMap_cons,
            Bool.false_eq_true]
          exact ih c
      | true =>
          have hkey : Score.blt c.confidence (candidateAt n rq).1
              = Q.blt (chordKeyF c) (chordKeyF (candidateAt n rq).2) := rfl
          cases hb : Score.blt c.confidence (candidateAt n rq).1 with
          | true =>
              simp only [h5, hb, if_true, List.filterMap_cons]
              have hrb : runBest chordKeyF c ((candidateAt n rq).2
                    :: rest.filterMap (fun rq =>
                      let cc := candidateAt n rq
                      if Score.bgtQ cc.1 0.5 then some cc.2 else none))
                  = runBest chordKeyF (candidateAt n rq).2 (rest.filterMap (fun rq =>
                      let cc := candidateAt n rq
                      if Score.bgtQ cc.1 0.5 then some cc.2 else none)) := by
                show runBest chordKeyF (if Q.blt (chordKeyF c)
                    (chordKeyF (candidateAt n rq).2) then (candidateAt n rq).2 else c) _
                  = _
                rw [← hkey, hb, if_pos rfl]
              rw [hrb]
              exact ih (candidateAt n rq).2
          | false =>
              simp only [h5, hb, if_true, Bool.false_eq_true, if_false,
                List.filterMap_cons]
              have hrb : runBest chordKeyF c ((candidateAt n rq).2
                    :: rest.filterMap (fun rq =>
                      let cc := candidateAt n rq
                      if Score.bgtQ cc.1 0.5 then some cc.2 else none))
                  = runBest chordKeyF c (rest.filterMap (fun rq =>
                      let cc := candidateAt n rq
                      if Score.bgtQ cc.1 0.5 then some cc.2 else none)) := by
                show runBest chordKeyF (if Q.blt (chordKeyF c)
                    (chordKeyF (candidateAt n rq).2) then (candidateAt n rq).2 else c) _
                  = _
                rw [← hkey, hb]
                simp only [Bool.false_eq_true, if_false]
              rw [hrb]
              exact ih c

theorem chordFold_from_none (n : List Q) :
    ∀ pairs : List (Nat × ChordQuality),
      pairs.foldl (fun (st : Option DetectedChord × Score) rq =>
          let cc := candidateAt n rq
          if Score.bgtQ cc.1 0.5 then
            if Score.blt st.2 cc.1 then (some cc.2, cc.1) else st
          else st) (none, ⟨0, 1⟩)
      = (match pairs.filterMap (fun rq =>
            let cc := candidateAt n rq
            if Score.bgtQ cc.1 0.5 then some cc.2 else none) with
         | [] => ((none : Option DetectedChord), (⟨0, 1⟩ : Score))
         | c :: cs => (some (runBest chordKeyF c cs),
              (runBest chordKeyF c cs).confidence)) := by
  intro pairs
  induction pairs with
  | nil => rfl
  | cons rq rest ih =>
      rw [List.foldl_cons]
      cases h5 : Score.bgtQ (candidateAt n rq).1 0.5 with
      | false =>
          simp only [h5, Bool.false_eq_true, if_false, List.filterMap_cons]
          exact ih
      | true =>
          have hz := blt_zero_of_bgt05 _ h5
          simp only [h5, hz, if_true, List.filterMap_cons]
          exact chordFold_from_some n rest (candidateAt n rq).2

theorem detectChordFromChroma_eq (chroma : List Q)
    (hlen : ¬ chroma.length ≠ 12)
    (hE : ¬ Q.blt (chroma.foldl (· + ·) (0 : Q)) (0.05 : Q) = true) :
    detectChordFromChroma chroma
      = match chordCandidates05Of
          (chroma.map (fun c => Q.div c (chroma.foldl (· + ·) (0 : Q)))) with
        | [] => none
        | c :: cs => some (runBest chordKeyF c cs) := by
  unfold detectChordFromChroma
  rw [if_neg hlen, if_neg hE]
  show (List.foldl (fun (st : Option DetectedChord × Score) rq =>
      let c := candidateAt
        (chroma.map (fun c => Q.div c (chroma.foldl (· + ·) (0 : Q)))) rq
      if Score.bgtQ c.1 0.5 then
        if Score.blt st.2 c.1 then (some c.2, c.1) else st
      else st) (none, ⟨0, 1⟩) chordCandidatePairs).1 = _
  rw [chordFold_from_none]
  cases hl : chordCandidates05Of
      (chroma.map (fun c => Q.div c (chroma.foldl (· + ·) (0 : Q)))) with
  | nil =>
      have : chordCandidatePairs.filterMap (fun rq =>
          let cc := candidateAt
            (chroma.map (fun c => Q.div c (chroma.foldl (· + ·) (0 : Q)))) rq
          if Score.bgtQ cc.1 0.5 then some cc.2 else none) = [] := hl
      rw [this]
  | cons c cs =>
      have : chordCandidatePairs.filterMap (fun rq =>
          let cc := candidateAt
            (chroma.map (fun c => Q.div c (chroma.foldl (· + ·) (0 : Q)))) rq
          if Score.bgtQ cc.1 0.5 then some cc.2 else none) = c :: cs := hl
      rw [this]

theorem detectChordWithAlternatives_chord_eq (chroma : List Q)
    (hlen : ¬ chroma.length ≠ 12)
    (hE : ¬ Q.blt (chroma.foldl (· + ·) (0 : Q)) (0.05 : Q) = true) :
    (detectChordWithAlternatives chroma).chord
      = listTop chordKeyF (chordCandidatesOf
          (chroma.map (fun c => Q.div c (chroma.foldl (· + ·) (0 : Q))))) := by
  unfold detectChordWithAlternatives
  rw [if_neg hlen, if_neg hE]
  show (sortByKeyDesc chordKeyF (chordCandidatesOf
      (chroma.map (fun c => Q.div c (chroma.foldl (· + ·) (0 : Q)))))).head? = _
  exact sortByKeyDesc_head chordKeyF chordKeyF_den_pos _

/-- C10 — whenever `detectChordFromChroma` returns a chord, it is exactly
the best chord of `detectChordWithAlternatives` (same root, quality,
confidence and display name); the first conjunct shows the agreement is
not vacuous. -/
theorem C10_detectors_agree :
    (detectChordFromChroma (CHORD_TEMPLATES .major)).isSome = true
    ∧ ∀ chroma : List Q, (detectChordFromChroma chroma).elim True
        (fun c => (detectChordWithAlternatives chroma).chord = some c) := by
  constructor
  · decide
  · intro chroma
    by_cases hlen : chroma.length ≠ 12
    · have h1 : detectChordFromChroma chroma = none := by
        unfold detectChordFromChroma
        rw [if_pos hlen]
      rw [h1]
      exact trivial
    · by_cases hE : Q.blt (chroma.foldl (· + ·) (0 : Q)) (0.05 : Q) = true
      · have h1 : detectChordFromChroma chroma = none := by
          unfold detectChordFromChroma
          rw [if_neg hlen, if_pos hE]
        rw [h1]
        exact trivial
      · rw [detectChordFromChroma_eq chroma hlen hE]
        cases h05 : chordCandidates05Of
            (chroma.map (fun c => Q.div c (chroma.foldl (· + ·) (0 : Q)))) with
        | nil => exact trivial
        | cons c cs =>
            show (detectChordWithAlternatives chroma).chord
              = some (runBest chordKeyF c cs)
            rw [detectChordWithAlternatives_chord_eq chroma hlen hE,
              runBest_eq_topBest chordKeyF chordKeyF_den_pos]
            apply listTop_filter_sep chordKeyF chordKeyF_den_pos
              (fun z => Score.bgtQ z.confidence 0.5) (1 / 4)
              chordKey_le_of_not05 chordKey_gt_of05
            rw [← cands05_eq_filter, h05]
            rfl

/-- C2 counterexample — the chord estimator does not score 12 × 9
combinations: `aug` and `sus2` are never scored (they are absent from
`COMMON_QUALITIES`); feeding the C-sus2 template itself, which would
match `sus2` with similarity 1, returns a `sus4` chord instead. -/
theorem C2_cex_missing_qualities :
    ChordQuality.aug ∈ specNineQualities
    ∧ ChordQuality.aug ∉ COMMON_QUALITIES
    ∧ ChordQuality.sus2 ∈ specNineQualities
    ∧ ChordQuality.sus2 ∉ COMMON_QUALITIES
    ∧ (detectChordWithAlternatives (CHORD_TEMPLATES .sus2)).chord.map
        (fun c => c.quality) = some ChordQuality.sus4 := by decide

/-- C2 (amended) — the estimator scores every combination of 12 roots ×
the seven qualities of `COMMON_QUALITIES` (major, minor, dominant-7,
minor-7, major-7, diminished, sus4; 84 pairs), rotating each template to
the root and comparing by cosine similarity against the normalized
chroma: whenever a best chord is returned, no scored pair has a strictly
higher similarity. -/
theorem C2_seven_quality_argmax :
    COMMON_QUALITIES = [.major, .minor, .dom7, .min7, .maj7, .dim, .sus4]
    ∧ chordCandidatePairs.length = 84
    ∧ (detectChordWithAlternatives (CHORD_TEMPLATES .major)).chord.isSome = true
    ∧ ∀ chroma : List Q, (detectChordWithAlternatives chroma).chord.elim True
        (fun best => (chordCandidatePairs.all (fun rq =>
            !Score.blt best.confidence
              (candidateAt (chroma.map (fun c =>
                Q.div c (chroma.foldl (· + ·) (0 : Q)))) rq).1)) = true) := by
  refine ⟨rfl, by decide, by decide, ?_⟩
  intro chroma
  by_cases hlen : chroma.length ≠ 12
  · have h1 : (detectChordWithAlternatives chroma).chord = none := by
      unfold detectChordWithAlternatives
      rw [if_pos hlen]
    rw [h1]
    exact trivial
  · by_cases hE : Q.blt (chroma.foldl (· + ·) (0 : Q)) (0.05 : Q) = true
    · have h1 : (detectChordWithAlternatives chroma).chord = none := by
        unfold detectChordWithAlternatives
        rw [if_neg hlen, if_pos hE]
      rw [h1]
      exact trivial
    · rw [detectChordWithAlternatives_chord_eq chroma hlen hE]
      cases hLT : listTop chordKeyF (chordCandidatesOf
          (chroma.map (fun c => Q.div c (chroma.foldl (· + ·) (0 : Q))))) with
      | none => exact trivial
      | some best =>
          show (chordCandidatePairs.all _) = true
          rw [List.all_eq_true]
          intro rq hrq
          rw [Bool.not_eq_true']
          have hkey : Score.blt best.confidence
              (candidateAt (chroma.map (fun c =>
                Q.div c (chroma.foldl (· + ·) (0 : Q)))) rq).1
              = Q.blt (chordKeyF best) (chordKeyF (candidateAt (chroma.map (fun c =>
                Q.div c (chroma.foldl (· + ·) (0 : Q)))) rq).2) := rfl
          rw [hkey, Q.blt_false_iff (chordKeyF_den_pos _) (chordKeyF_den_pos _)]
          cases hc : chordCandidatesOf (chroma.map (fun c =>
              Q.div c (chroma.foldl (· + ·) (0 : Q)))) with
          | nil =>
              rw [hc] at hLT
              exact absurd hLT (by simp [listTop])
          | cons c0 cs =>
              rw [hc] at hLT
              have hbest : topBest chordKeyF c0 cs = best := by
                simpa [listTop] using hLT
              have hbest_mem : best ∈ c0 :: cs :=
                hbest ▸ topBest_mem chordKeyF cs c0
              have hbest04 : Score.bgtQ best.confidence 0.4 = true := by
                have hmem2 := hbest_mem
                rw [← hc] at hmem2
                unfold chordCandidatesOf at hmem2
                obtain ⟨rq2, hrq2, heq⟩ := List.mem_filterMap.mp hmem2
                by_cases h4 : Score.bgtQ (candidateAt (chroma.map (fun c =>
                    Q.div c (chroma.foldl (· + ·) (0 : Q)))) rq2).1 0.4 = true
                · have hbb : (candidateAt (chroma.map (fun c =>
                      Q.div c (chroma.foldl (· + ·) (0 : Q)))) rq2).2 = best := by
                    simpa [h4] using heq
                  rw [← hbb]
                  exact h4
                · simp [h4] at heq
              by_cases h4 : Score.bgtQ (candidateAt (chroma.map (fun c =>
                  Q.div c (chroma.foldl (· + ·) (0 : Q)))) rq).1 0.4 = true
              · have hmem : (candidateAt (chroma.map (fun c =>
                    Q.div c (chroma.foldl (· + ·) (0 : Q)))) rq).2
                    ∈ chordCandidatesOf (chroma.map (fun c =>
                      Q.div c (chroma.foldl (· + ·) (0 : Q)))) := by
                  unfold chordCandidatesOf
                  exact List.mem_filterMap.mpr ⟨rq, hrq, by simp [h4]⟩
                rw [hc] at hmem
                have hle := topBest_mem_le chordKeyF chordKeyF_den_pos cs c0 _ hmem
                rw [hbest] at hle
                exact hle
              · have hf : Score.bgtQ (candidateAt (chroma.map (fun c =>
                    Q.div c (chroma.foldl (· + ·) (0 : Q)))) rq).1 0.4 = false := by
                  cases hx : Score.bgtQ (candidateAt (chroma.map (fun c =>
                      Q.div c (chroma.foldl (· + ·) (0 : Q)))) rq).1 0.4
                  · rfl
                  · exact absurd hx h4
                have h1 := chordKey_le_of_not04 (candidateAt (chroma.map (fun c =>
                    Q.div c (chroma.foldl (· + ·) (0 : Q)))) rq).2 hf
                have h2 := chordKey_gt_of04 best hbest04
                linarith

/-! ### Key-detector reduction lemmas and the alternate-key threshold -/

/-- `t ↦ t·|t|` comparison: a key known to be at least `1/4` is above
`-1/25`. -/
theorem Q.blt_gt_of_ge14 {K : Q} (hK : 0 < K.den)
    (h : Q.blt K ⟨1, 4⟩ = false) : Q.blt ⟨-1, 25⟩ K = true := by
  rw [Q.blt_iff (by decide) hK]
  have h1 := (Q.blt_false_iff hK (by decide)).mp h
  have h2 : ((⟨-1, 25⟩ : Q).val) < ((⟨1, 4⟩ : Q).val) := by
    show ((-1 : Int) : ℚ) / ((25 : Nat) : ℚ) < ((1 : Int) : ℚ) / ((4 : Nat) : ℚ)
    norm_num
  linarith

/-- A key known to be below `-1/4` is not above `-1/25`. -/
theorem Q.blt_lt_of_lt_neg14 {K : Q} (hK : 0 < K.den)
    (h : Q.blt K ⟨-1, 4⟩ = true) : Q.blt ⟨-1, 25⟩ K = false := by
  rw [Q.blt_false_iff (by decide) hK]
  have h1 := (Q.blt_iff hK (by decide)).mp h
  have h2 : ((⟨-1, 4⟩ : Q).val) ≤ ((⟨-1, 25⟩ : Q).val) := by
    show ((-1 : Int) : ℚ) / ((4 : Nat) : ℚ) ≤ ((-1 : Int) : ℚ) / ((25 : Nat) : ℚ)
    norm_num
  linarith

/-- Clamping the confidence `(corr + 1) / 2` to `[0, 1]` does not change
whether it exceeds `0.3`: the clamp only moves values past the threshold
on the same side. -/
theorem clamp_bgt03 (sc : Score) :
    AffScore.bgtQ (clampConfidence sc) (0.3 : Q)
      = AffScore.bgtQ (((AffScore.ofScore sc).addQ 1).divQ 2) (0.3 : Q) := by
  have hblt : ∀ (x : AffScore) (c : Q), AffScore.bltQ x c
      = Q.blt (Q.div (Q.mul x.dot (Q.abs x.dot)) x.rad)
          (Q.mul (c - x.off) (Q.abs (c - x.off))) := fun _ _ => rfl
  have hbgt : ∀ (x : AffScore) (c : Q), AffScore.bgtQ x c
      = Q.blt (Q.mul (c - x.off) (Q.abs (c - x.off)))
          (Q.div (Q.mul x.dot (Q.abs x.dot)) x.rad) := fun _ _ => rfl
  have hoff : (((AffScore.ofScore sc).addQ 1).divQ 2).off = ((0 : Q) + 1) / 2 := rfl
  have hdot : (((AffScore.ofScore sc).addQ 1).divQ 2).dot = sc.dot / 2 := rfl
  have hrad : (((AffScore.ofScore sc).addQ 1).divQ 2).rad = sc.rad := rfl
  have e1 : Q.mul ((1 : Q) - ((0 : Q) + 1) / 2) (Q.abs ((1 : Q) - ((0 : Q) + 1) / 2))
      = (⟨1, 4⟩ : Q) := by decide
  have e0 : Q.mul ((0 : Q) - ((0 : Q) + 1) / 2) (Q.abs ((0 : Q) - ((0 : Q) + 1) / 2))
      = (⟨-1, 4⟩ : Q) := by decide
  have e3 : Q.mul ((0.3 : Q) - ((0 : Q) + 1) / 2) (Q.abs ((0.3 : Q) - ((0 : Q) + 1) / 2))
      = (⟨-1, 25⟩ : Q) := by decide
  have hKpos : 0 < (Q.div (Q.mul (sc.dot / (2 : Q)) (Q.abs (sc.dot / (2 : Q)))) sc.rad).den :=
    (Q.div_canon _ _).1
  have h1eq : AffScore.bltQ (((AffScore.ofScore sc).addQ 1).divQ 2) (1 : Q)
      = Q.blt (Q.div (Q.mul (sc.dot / (2 : Q)) (Q.abs (sc.dot / (2 : Q)))) sc.rad) ⟨1, 4⟩ := by
    rw [hblt, hoff, hdot, hrad, e1]
  have h0eq : AffScore.bltQ (((AffScore.ofScore sc).addQ 1).divQ 2) (0 : Q)
      = Q.blt (Q.div (Q.mul (sc.dot / (2 : Q)) (Q.abs (sc.dot / (2 : Q)))) sc.rad) ⟨-1, 4⟩ := by
    rw [hblt, hoff, hdot, hrad, e0]
  have hveq : AffScore.bgtQ (((AffScore.ofScore sc).addQ 1).divQ 2) (0.3 : Q)
      = Q.blt ⟨-1, 25⟩ (Q.div (Q.mul (sc.dot / (2 : Q)) (Q.abs (sc.dot / (2 : Q)))) sc.rad) := by
    rw [hbgt, hoff, hdot, hrad, e3]
  show AffScore.bgtQ
      (if AffScore.bltQ
          (if AffScore.bltQ (((AffScore.ofScore sc).addQ 1).divQ 2) 1 = true
            then ((AffScore.ofScore sc).addQ 1).divQ 2 else AffScore.constQ 1) 0 = true
        then AffScore.constQ 0
        else (if AffScore.bltQ (((AffScore.ofScore sc).addQ 1).divQ 2) 1 = true
            then ((AffScore.ofScore sc).addQ 1).divQ 2 else AffScore.constQ 1))
      (0.3 : Q) = AffScore.bgtQ (((AffScore.ofScore sc).addQ 1).divQ 2) (0.3 : Q)
  by_cases h1 : AffScore.bltQ (((AffScore.ofScore sc).addQ 1).divQ 2) (1 : Q) = true
  · rw [if_pos h1]
    by_cases h0 : AffScore.bltQ (((AffScore.ofScore sc).addQ 1).divQ 2) (0 : Q) = true
    · rw [if_pos h0, hveq, Q.blt_lt_of_lt_neg14 hKpos (h0eq ▸ h0)]
      decide
    · rw [if_neg h0]
  · rw [if_neg h1,
      if_neg (by decide : ¬ (AffScore.bltQ (AffScore.constQ 1) (0 : Q) = true)), hveq]
    have hKfalse : Q.blt (Q.div (Q.mul (sc.dot / (2 : Q))
        (Q.abs (sc.dot / (2 : Q)))) sc.rad) ⟨1, 4⟩ = false := by
      cases hx : AffScore.bltQ (((AffScore.ofScore sc).addQ 1).divQ 2) (1 : Q)
      · rw [← h1eq]
        exact hx
      · exact absurd hx h1
    rw [Q.blt_gt_of_ge14 hKpos hKfalse]
    decide

/-- A scan step never clears the tracked best correlation. -/
theorem keyScanStep_best_isSome (n : List Q) (st : KeyScanState) (c : Mode × Nat)
    (h : st.bestCorrelation.isSome = true) :
    ((keyScanStep n st c).bestCorrelation).isSome = true := by
  show ((if scoreGtOpt (pearsonCorrelation n (rotateProfile (keyProfile c.1) c.2))
        st.bestCorrelation = true then
      (⟨some (pearsonCorrelation n (rotateProfile (keyProfile c.1) c.2)), c.2, c.1,
        st.bestCorrelation, st.bestKey, st.bestMode⟩ : KeyScanState)
    else if scoreGtOpt (pearsonCorrelation n (rotateProfile (keyProfile c.1) c.2))
        st.secondBestCorrelation = true then
      (⟨st.bestCorrelation, st.bestKey, st.bestMode,
        some (pearsonCorrelation n (rotateProfile (keyProfile c.1) c.2)), c.2, c.1⟩ : KeyScanState)
    else st).bestCorrelation).isSome = true
  split
  · rfl
  · split
    · exact h
    · exact h

/-- Folding scan steps preserves a set best correlation. -/
theorem foldl_keyScanStep_isSome (n : List Q) (l : List (Mode × Nat)) (st : KeyScanState)
    (h : st.bestCorrelation.isSome = true) :
    ((l.foldl (keyScanStep n) st).bestCorrelation).isSome = true := by
  induction l generalizing st with
  | nil => exact h
  | cons c cs ih => exact ih (keyScanStep n st c) (keyScanStep_best_isSome n st c h)

/-- The 24-candidate scan always records a best correlation (its first
iteration beats the `-Infinity` initial value). -/
theorem keyScan_best_isSome (n : List Q) :
    ((keyScan n).bestCorrelation).isSome = true := by
  have h0 : ((keyScanStep n keyScanInit (Mode.major, 0)).bestCorrelation).isSome = true := rfl
  have hK : keyCandidates = (Mode.major, 0) :: keyCandidates.tail := rfl
  unfold keyScan
  rw [hK, List.foldl_cons]
  exact foldl_keyScanStep_isSome n keyCandidates.tail
    (keyScanStep n keyScanInit (Mode.major, 0)) h0

/-- Reduction of `detectKeyFromChroma` past its guards. -/
theorem detectKeyFromChroma_eq (chroma : List Q)
    (hlen : ¬ chroma.length ≠ 12)
    (hE : ¬ Q.blt (chroma.foldl (· + ·) (0 : Q)) (0.01 : Q) = true) :
    detectKeyFromChroma chroma
      = match (keyScan (chroma.map (fun c =>
            Q.div c (chroma.foldl (· + ·) (0 : Q))))).bestCorrelation with
        | some bc =>
            some ⟨noteName (keyScan (chroma.map (fun c =>
                    Q.div c (chroma.foldl (· + ·) (0 : Q))))).bestKey,
                  (keyScan (chroma.map (fun c =>
                    Q.div c (chroma.foldl (· + ·) (0 : Q))))).bestMode,
                  clampConfidence bc,
                  match (keyScan (chroma.map (fun c =>
                      Q.div c (chroma.foldl (· + ·) (0 : Q))))).secondBestCorrelation with
                  | some sc =>
                      if AffScore.bgtQ (clampConfidence sc) 0.3 then
                        some ⟨noteName (keyScan (chroma.map (fun c =>
                                Q.div c (chroma.foldl (· + ·) (0 : Q))))).secondBestKey,
                              (keyScan (chroma.map (fun c =>
                                Q.div c (chroma.foldl (· + ·) (0 : Q))))).secondBestMode,
                              clampConfidence sc⟩
                      else none
                  | none => none⟩
        | none => some ⟨noteName 0, .major, AffScore.constQ 0, none⟩ := by
  unfold detectKeyFromChroma
  rw [if_neg hlen, if_neg hE]

/-- C9 — whenever the key detector returns an estimate, the alternate
(second-best) key is included exactly when the second-best confidence
`(corr + 1) / 2` exceeds `0.3` (the clamp to `[0, 1]` applied by the code
cannot change the comparison with `0.3`); the first conjunct shows the
criterion is not vacuous. -/
theorem C9_alternate_threshold :
    ((detectKeyFromChroma [1, 0, 0, 0, 0, 0, 0, 0, 0, 0, 0, 0]).elim false
        (fun dk => dk.alternateKey.isSome)) = true
    ∧ ∀ chroma : List Q, (detectKeyFromChroma chroma).elim True (fun dk =>
        dk.alternateKey.isSome = true
          ↔ ∃ sc, (keyScan (chroma.map (fun c =>
                Q.div c (chroma.foldl (· + ·) (0 : Q))))).secondBestCorrelation = some sc
              ∧ AffScore.bgtQ (((AffScore.ofScore sc).addQ 1).divQ 2) (0.3 : Q) = true) := by
  constructor
  · decide
  · intro chroma
    by_cases hlen : chroma.length ≠ 12
    · have h1 : detectKeyFromChroma chroma = none := by
        unfold detectKeyFromChroma
        rw [if_pos hlen]
      rw [h1]
      exact trivial
    · by_cases hE : Q.blt (chroma.foldl (· + ·) (0 : Q)) (0.01 : Q) = true
      · have h1 : detectKeyFromChroma chroma = none := by
          unfold detectKeyFromChroma
          rw [if_neg hlen, if_pos hE]
        rw [h1]
        exact trivial
      · rw [detectKeyFromChroma_eq chroma hlen hE]
        cases hbc : (keyScan (chroma.map (fun c =>
            Q.div c (chroma.foldl (· + ·) (0 : Q))))).bestCorrelation with
        | none =>
            exact absurd (keyScan_best_isSome (chroma.map (fun c =>
              Q.div c (chroma.foldl (· + ·) (0 : Q))))) (by rw [hbc]; decide)
        | some bc =>
            cases hsc : (keyScan (chroma.map (fun c =>
                Q.div c (chroma.foldl (· + ·) (0 : Q))))).secondBestCorrelation with
            | none =>
                show ((none : Option AlternateKey).isSome = true)
                  ↔ ∃ sc2, (none : Option Score) = some sc2
                      ∧ AffScore.bgtQ (((AffScore.ofScore sc2).addQ 1).divQ 2) (0.3 : Q) = true
                constructor
                · intro hcon
                  exact absurd hcon (by decide)
                · rintro ⟨sc2, hsc2, _⟩
                  exact Option.noConfusion hsc2
            | some sc =>
                simp only [Option.elim]
                by_cases hB : AffScore.bgtQ (clampConfidence sc) (0.3 : Q) = true
                · rw [if_pos hB]
                  constructor
                  · intro _
                    refine ⟨sc, rfl, ?_⟩
                    rw [← clamp_bgt03]
                    exact hB
                  · intro _
                    rfl
                · rw [if_neg hB]
                  constructor
                  · intro hcon
                    exact absurd hcon (by decide)
                  · rintro ⟨sc2, hsc2, hb2⟩
                    have hs : sc = sc2 := Option.some.inj hsc2
                    refine absurd ?_ hB
                    rw [clamp_bgt03, hs]
                    exact hb2

/-! ### Fragment-matcher score equivalence (claim C1) -/

/-- Value of `qOfNat`. -/
theorem Q.val_qOfNat (n : Nat) : (qOfNat n).val = (n : ℚ) := by
  show ((n : Int) : ℚ) / ((1 : Nat) : ℚ) = (n : ℚ)
  push_cast
  exact div_one _

/-- Value of a quotient of naturals. -/
theorem qdiv_qOfNat_val (a b : Nat) :
    (Q.div (qOfNat a) (qOfNat b)).val = (a : ℚ) / (b : ℚ) := by
  rw [Q.val_div Nat.one_ne_zero Nat.one_ne_zero, Q.val_qOfNat, Q.val_qOfNat]

/-- Multiplication of `Q` values commutes. -/
theorem Q.mul_comm_q (x y : Q) : x * y = y * x := by
  show Q.mul x y = Q.mul y x
  unfold Q.mul
  rw [Int.mul_comm, Nat.mul_comm]

/-- Seed shift for `foldr max`. -/
theorem foldr_max_seed (l : List Nat) (a b : Nat) :
    l.foldr max (max a b) = max b (l.foldr max a) := by
  induction l with
  | nil => exact Nat.max_comm a b
  | cons x xs ih =>
      simp only [List.foldr_cons, ih]
      omega

/-- The accumulator form of the best-offset loop equals a `foldr`
maximum over the mapped list. -/
theorem foldl_max_eq_foldr_map (f : Nat → Nat) (l : List Nat) (a : Nat) :
    l.foldl (fun best i => max best (f i)) a = (l.map f).foldr max a := by
  induction l generalizing a with
  | nil => rfl
  | cons x xs ih =>
      simp only [List.foldl_cons, List.map_cons, List.foldr_cons]
      rw [ih (max a (f x))]
      exact foldr_max_seed (xs.map f) a (f x)

/-- A `foldr max 0` of zeros is zero. -/
theorem foldr_max_zero_of_all (l : List Nat) (h : ∀ x ∈ l, x = 0) :
    l.foldr max 0 = 0 := by
  induction l with
  | nil => rfl
  | cons x xs ih =>
      rw [List.foldr_cons, ih (fun y hy => h y (List.mem_cons_of_mem x hy)),
        h x (List.mem_cons_self x xs)]
      rfl

/-- The valid sliding offsets: filtering `range (s + 1)` by `i + d ≤ s`
gives `range (s - d + 1)` when the window fits and nothing otherwise —
exactly the guarded offset list of the code. -/
theorem filter_range_offsets (s d : Nat) :
    (List.range (s + 1)).filter (fun i => decide (i + d ≤ s))
      = if d ≤ s then List.range (s - d + 1) else [] := by
  by_cases h : d ≤ s
  · rw [if_pos h]
    have hsplit : s + 1 = (s - d + 1) + d := by omega
    rw [hsplit, List.range_add, List.filter_append]
    have h1 : (List.range (s - d + 1)).filter (fun i => decide (i + d ≤ s))
        = List.range (s - d + 1) := by
      apply List.filter_eq_self.mpr
      intro a ha
      rw [List.mem_range] at ha
      exact decide_eq_true (by omega)
    have h2 : ((List.range d).map (fun x => (s - d + 1) + x)).filter
        (fun i => decide (i + d ≤ s)) = [] := by
      apply List.filter_eq_nil_iff.mpr
      intro a ha hc
      rw [List.mem_map] at ha
      obtain ⟨j, hj, hje⟩ := ha
      rw [List.mem_range] at hj
      rw [← hje] at hc
      have := of_decide_eq_true hc
      omega
    rw [h1, h2, List.append_nil]
  · rw [if_neg h]
    apply List.filter_eq_nil_iff.mpr
    intro a ha hc
    rw [List.mem_range] at ha
    have := of_decide_eq_true hc
    omega

/-- The `jsSetDedup` fold never shortens its accumulator. -/
theorem dedup_foldl_len (l acc : List String) :
    acc.length ≤ (List.foldl
      (fun acc x => if x ∈ acc then acc else acc ++ [x]) acc l).length := by
  induction l generalizing acc with
  | nil => exact Nat.le_refl _
  | cons x xs ih =>
      simp only [List.foldl_cons]
      refine Nat.le_trans ?_ (ih _)
      split
      · exact Nat.le_refl _
      · simp

/-- Deduplicating a nonempty list yields a nonempty list. -/
theorem jsSetDedup_len_pos (l : List String) (h : l ≠ []) :
    0 < (jsSetDedup l).length := by
  cases l with
  | nil => exact absurd rfl h
  | cons x xs =>
      show 0 < (List.foldl
        (fun acc x => if x ∈ acc then acc else acc ++ [x]) [] (x :: xs)).length
      rw [List.foldl_cons]
      have h1 : (if x ∈ ([] : List String) then ([] : List String) else [] ++ [x])
          = [x] := by simp
      rw [h1]
      exact Nat.lt_of_lt_of_le Nat.one_pos (dedup_foldl_len xs [x])

/-- `specSequenceScore`, written out. -/
theorem specSequenceScore_eq (detected song : List String) :
    specSequenceScore detected song
      = Q.div (qOfNat ((((List.range ((song.map normalizeChord).length + 1)).filter
            (fun i => decide (i + (detected.map normalizeChord).length
              ≤ (song.map normalizeChord).length))).map (fun i =>
            countWindowMatches (detected.map normalizeChord)
              (song.map normalizeChord) i)).foldr max 0))
          (qOfNat (detected.map normalizeChord).length) := rfl

/-- `specOverlapScore`, written out. -/
theorem specOverlapScore_eq (detected song : List String) :
    specOverlapScore detected song
      = Q.div (qOfNat (((jsSetDedup (song.map normalizeChord)).filter (fun sc =>
            (jsSetDedup (detected.map normalizeChord)).any (fun dc =>
              chordsMatch dc sc))).length))
          (qOfNat (jsSetDedup (song.map normalizeChord)).length) := rfl

/-- `specCombinedScore`, written out. -/
theorem specCombinedScore_eq (detected song : List String) :
    specCombinedScore detected song
      = qMax 0 (qMin 1 (0.7 * specSequenceScore detected song
          + 0.3 * specOverlapScore detected song)) := rfl

/-- The min-at-1 clamp of the code agrees with the `[0, 1]` clamp of the
specification on nonnegative canonical inputs. -/
theorem clamp_min1_eq (z : Q) (hz : z.IsCanon) (h0 : 0 ≤ z.val) :
    (if Q.blt z 1 then z else 1) = qMax 0 (qMin 1 z) := by
  have hzd : 0 < z.den := hz.1
  have h1d : 0 < (1 : Q).den := Nat.one_pos
  have h0d : 0 < (0 : Q).den := Nat.one_pos
  have hv0 : (0 : Q).val = 0 := by rw [Q.val_ofNat]; norm_num
  unfold qMax qMin
  by_cases h : Q.blt z 1 = true
  · rw [if_pos h]
    have hz1 : z.val < (1 : Q).val := (Q.blt_iff hzd h1d).mp h
    have h1z : Q.blt 1 z = false := by
      cases hb : Q.blt 1 z
      · rfl
      · exact absurd ((Q.blt_iff h1d hzd).mp hb) (by linarith)
    rw [if_neg (by simp [h1z] : ¬ Q.blt 1 z = true)]
    by_cases hb0 : Q.blt 0 z = true
    · rw [if_pos hb0]
    · rw [if_neg hb0]
      have hb0f : Q.blt 0 z = false := by
        cases hbx : Q.blt 0 z
        · rfl
        · exact absurd hbx hb0
      have hle := (Q.blt_false_iff h0d hzd).mp hb0f
      apply Q.canon_val_inj hz (Q.ofNat_canon 0)
      rw [hv0] at hle ⊢
      linarith
  · rw [if_neg h]
    have hf : Q.blt z 1 = false := by
      cases hb : Q.blt z 1
      · rfl
      · exact absurd hb h
    have h1le : (1 : Q).val ≤ z.val := (Q.blt_false_iff hzd h1d).mp hf
    by_cases h2 : Q.blt 1 z = true
    · rw [if_pos h2, if_pos (by decide : Q.blt 0 1 = true)]
    · rw [if_neg h2]
      have h2f : Q.blt 1 z = false := by
        cases hb : Q.blt 1 z
        · rfl
        · exact absurd hb h2
      have hz1 : z.val ≤ (1 : Q).val := (Q.blt_false_iff h1d hzd).mp h2f
      have hz_eq : z = 1 := Q.canon_val_inj hz (Q.ofNat_canon 1) (le_antisymm hz1 h1le)
      rw [hz_eq, if_pos (by decide : Q.blt 0 1 = true)]

/-- The guarded offset list of `calculateMatchScore`. -/
def codeOffsets (detected song : List String) : List Nat :=
  if (detected.map normalizeChord).length ≤ (song.map normalizeChord).length then
    List.range ((song.map normalizeChord).length
      - (detected.map normalizeChord).length + 1)
  else []

/-- The best sliding-window match count of `calculateMatchScore`. -/
def codeBest (detected song : List String) : Nat :=
  (codeOffsets detected song).foldl (fun best i => max best
    (countWindowMatches (detected.map normalizeChord)
      (song.map normalizeChord) i)) 0

/-- The chord-overlap count of `calculateMatchScore`. -/
def codeOverlapCount (detected song : List String) : Nat :=
  ((jsSetDedup (song.map normalizeChord)).filter (fun sc =>
    (jsSetDedup (detected.map normalizeChord)).any (fun dc =>
      chordsMatch dc sc))).length

/-- The pre-clamp combined score of `calculateMatchScore`. -/
def codeFinal (detected song : List String) : Q :=
  (if 0 < (detected.map normalizeChord).length then
      Q.div (qOfNat (codeBest detected song))
        (qOfNat (detected.map normalizeChord).length)
    else 0) * 0.7
  + (if 0 < (jsSetDedup (song.map normalizeChord)).length then
      Q.div (qOfNat (codeOverlapCount detected song))
        (qOfNat (jsSetDedup (song.map normalizeChord)).length)
    else 0) * 0.3

/-- Reduction of `calculateMatchScore` past its empty-input guard. -/
theorem calculateMatchScore_eq (detected song : List String)
    (h : ¬ (detected.length = 0 ∨ song.length = 0)) :
    calculateMatchScore detected song
      = ⟨if Q.blt (codeFinal detected song) 1 then codeFinal detected song else 1,
         codeBest detected song⟩ := by
  unfold calculateMatchScore
  rw [if_neg h]
  rfl

/-- A combined score with both component values zero is zero. -/
theorem specCombined_zero (detected song : List String)
    (hS : (specSequenceScore detected song).val = 0)
    (hO : (specOverlapScore detected song).val = 0) :
    specCombinedScore detected song = 0 := by
  have hz : (0.7 * specSequenceScore detected song
      + 0.3 * specOverlapScore detected song) = (0 : Q) := by
    apply Q.canon_val_inj (by rw [Q.hadd_def]; exact Q.add_canon _ _) (Q.ofNat_canon 0)
    rw [Q.hadd_def, Q.val_add
        (by rw [Q.hmul_def]; exact (Q.mul_canon _ _).1.ne')
        (by rw [Q.hmul_def]; exact (Q.mul_canon _ _).1.ne'),
      Q.hmul_def, Q.val_mul, Q.hmul_def, Q.val_mul, hS, hO, Q.val_ofNat]
    push_cast
    ring
  rw [specCombinedScore_eq, hz]
  decide

/-- C1 — the fragment matcher's combined score is, for every detected
list and song progression, exactly the specification's
`clamp([0,1], 0.7·sequence + 0.3·overlap)` (the code clamps only at 1,
but the score is never negative, and its division-by-zero convention on
empty inputs agrees with the formula); the first conjunct evaluates both
sides on a concrete example. -/
theorem C1_combined_score :
    ((calculateMatchScore ["C"] ["C", "G"]).score = ⟨17, 20⟩
      ∧ specCombinedScore ["C"] ["C", "G"] = ⟨17, 20⟩)
    ∧ ∀ detected song : List String,
        (calculateMatchScore detected song).score = specCombinedScore detected song := by
  refine ⟨⟨by decide, by decide⟩, ?_⟩
  intro detected song
  by_cases hg : detected.length = 0 ∨ song.length = 0
  · have hcode : calculateMatchScore detected song = ⟨0, 0⟩ := by
      unfold calculateMatchScore
      rw [if_pos hg]
    rw [hcode]
    show (0 : Q) = specCombinedScore detected song
    rcases hg with hd | hs
    · have hdnil : detected = [] := List.length_eq_zero.mp hd
      subst hdnil
      have hS : (specSequenceScore [] song).val = 0 := by
        rw [specSequenceScore_eq, qdiv_qOfNat_val]
        have hzero : ((List.map normalizeChord ([] : List String)).length : ℚ) = 0 := by
          norm_num
        rw [hzero, div_zero]
      have hO : (specOverlapScore [] song).val = 0 := by
        rw [specOverlapScore_eq, qdiv_qOfNat_val]
        have hnil : (jsSetDedup (song.map normalizeChord)).filter (fun sc =>
            (jsSetDedup (List.map normalizeChord ([] : List String))).any
              (fun dc => chordsMatch dc sc)) = [] := by
          apply List.filter_eq_nil_iff.mpr
          intro a ha hc
          simp [jsSetDedup] at hc
        rw [hnil]
        norm_num
      exact (specCombined_zero [] song hS hO).symm
    · have hsnil : song = [] := List.length_eq_zero.mp hs
      subst hsnil
      have hO : (specOverlapScore detected []).val = 0 := by
        rw [specOverlapScore_eq, qdiv_qOfNat_val]
        show (((0 : Nat) : ℚ)) / (((0 : Nat) : ℚ)) = 0
        norm_num
      have hS : (specSequenceScore detected []).val = 0 := by
        rw [specSequenceScore_eq, qdiv_qOfNat_val]
        rcases Nat.eq_zero_or_pos (detected.map normalizeChord).length with hz | hpos
        · rw [hz]
          norm_num
        · have hcw : ∀ i, countWindowMatches (detected.map normalizeChord)
              (List.map normalizeChord ([] : List String)) i = 0 := by
            intro i
            simp [countWindowMatches]
          rw [foldr_max_zero_of_all _ (by
            intro x hx
            rw [List.mem_map] at hx
            obtain ⟨i, _, hie⟩ := hx
            rw [← hie, hcw])]
          norm_num
      exact (specCombined_zero detected [] hS hO).symm
  · obtain ⟨hd, hs⟩ := not_or.mp hg
    have hoffs : codeOffsets detected song
        = (List.range ((song.map normalizeChord).length + 1)).filter (fun i =>
            decide (i + (detected.map normalizeChord).length
              ≤ (song.map normalizeChord).length)) := by
      unfold codeOffsets
      rw [filter_range_offsets]
    have hbest : codeBest detected song
        = (((List.range ((song.map normalizeChord).length + 1)).filter (fun i =>
            decide (i + (detected.map normalizeChord).length
              ≤ (song.map normalizeChord).length))).map (fun i =>
            countWindowMatches (detected.map normalizeChord)
              (song.map normalizeChord) i)).foldr max 0 := by
      unfold codeBest
      rw [hoffs, foldl_max_eq_foldr_map (fun i =>
        countWindowMatches (detected.map normalizeChord)
          (song.map normalizeChord) i)]
    have hseq : (if 0 < (detected.map normalizeChord).length then
        Q.div (qOfNat (codeBest detected song))
          (qOfNat (detected.map normalizeChord).length)
      else 0) = specSequenceScore detected song := by
      rw [if_pos (by rw [List.length_map]; omega :
          0 < (detected.map normalizeChord).length), hbest, specSequenceScore_eq]
    have hov : (if 0 < (jsSetDedup (song.map normalizeChord)).length then
        Q.div (qOfNat (codeOverlapCount detected song))
          (qOfNat (jsSetDedup (song.map normalizeChord)).length)
      else 0) = specOverlapScore detected song := by
      rw [if_pos (jsSetDedup_len_pos _ (by
          intro hx
          apply hs
          have h2 := congrArg List.length hx
          rw [List.length_map] at h2
          exact h2))]
      unfold codeOverlapCount
      rw [specOverlapScore_eq]
    have hF : codeFinal detected song
        = 0.7 * specSequenceScore detected song
          + 0.3 * specOverlapScore detected song := by
      unfold codeFinal
      rw [hseq, hov,
        Q.mul_comm_q (specSequenceScore detected song) 0.7,
        Q.mul_comm_q (specOverlapScore detected song) 0.3]
    have hvS : 0 ≤ (specSequenceScore detected song).val := by
      rw [specSequenceScore_eq, qdiv_qOfNat_val]
      exact div_nonneg (Nat.cast_nonneg _) (Nat.cast_nonneg _)
    have hvO : 0 ≤ (specOverlapScore detected song).val := by
      rw [specOverlapScore_eq, qdiv_qOfNat_val]
      exact div_nonneg (Nat.cast_nonneg _) (Nat.cast_nonneg _)
    have h07 : 0 ≤ (0.7 : Q).val := by
      rw [(by decide : (0.7 : Q) = ⟨7, 10⟩)]
      show (0 : ℚ) ≤ ((7 : Int) : ℚ) / ((10 : Nat) : ℚ)
      norm_num
    have h03 : 0 ≤ (0.3 : Q).val := by
      rw [(by decide : (0.3 : Q) = ⟨3, 10⟩)]
      show (0 : ℚ) ≤ ((3 : Int) : ℚ) / ((10 : Nat) : ℚ)
      norm_num
    have hZnn : 0 ≤ (0.7 * specSequenceScore detected song
        + 0.3 * specOverlapScore detected song).val := by
      rw [Q.hadd_def, Q.val_add
          (by rw [Q.hmul_def]; exact (Q.mul_canon _ _).1.ne')
          (by rw [Q.hmul_def]; exact (Q.mul_canon _ _).1.ne'),
        Q.hmul_def, Q.val_mul, Q.hmul_def, Q.val_mul]
      exact add_nonneg (mul_nonneg h07 hvS) (mul_nonneg h03 hvO)
    have hZc : (0.7 * specSequenceScore detected song
        + 0.3 * specOverlapScore detected song).IsCanon := by
      rw [Q.hadd_def]
      exact Q.add_canon _ _
    rw [calculateMatchScore_eq detected song hg]
    show (if Q.blt (codeFinal detected song) 1
        then codeFinal detected song else 1) = specCombinedScore detected song
    rw [hF, specCombinedScore_eq]
    exact clamp_min1_eq _ hZc hZnn
